import Mathlib

/-!
# goexim `spoolfile`: a shallow embedding of `spoolfile.go`

The Go package reads an Exim spool pair (`<id>-H`, `<id>-D`) and parses the
header file into a `Msg`.  This development embeds `NewMsg`, `checkPaths`,
`checkFile`, `trim`, `Msg.String`, `Msg.CreateFile` and `Msg.Close`, together
with the parts of the Go standard library they call (`regexp`, `path`,
`bufio.Reader`, `fmt` scanning).

Conventions of the embedding

* A Go `string` / `[]byte` is a `List Char`; one `Char` stands for one byte and
  one rune (exact for ASCII content).  A nil slice is the empty list.
* Go `int` is a 64-bit integer: values are `Int`, the scanner rejects tokens
  outside the `int64` range and arithmetic on them is wrapped by `wrap64`.
* A Go call either returns or aborts with a run-time panic: results live in
  `Except Fault`, where `Fault.err` is a returned `error` and `Fault.panic`
  a run-time panic.
* The file system is an explicit `World`; the calls `os.Stat`, `os.OpenFile`,
  `syscall.FcntlFlock` and `Close` made by `NewMsg` and `Msg.Close` are
  recorded in order.
* A `bufio.Reader` is the list of bytes not yet consumed.  `Read` hands out
  what is left up to the requested count, which is what the library does
  while the rest of the file sits in its buffer (files below 4096 bytes).
-/

deriving instance DecidableEq for Except

namespace Spoolfile

/-- Byte strings: Go `string` and `[]byte`. -/
abbrev Bytes := List Char

/-! ## Errors and outcomes -/

/-- Go `error` values that `NewMsg` and `String` can return. -/
inductive Error where
  /-- Built by `fmt.Errorf` in this package; the field is the message. -/
  | errorf (text : Bytes)
  /-- The sentinel `io.EOF`. -/
  | eof
  /-- The sentinel `io.ErrUnexpectedEOF`. -/
  | unexpectedEOF
  /-- Raised by the `fmt` scanner (`ss.errorString`); the field is the message. -/
  | scan (text : String)
  /-- Range error of `strconv.ParseInt` on the token. -/
  | range (tok : Bytes)
  /-- Go `os.Stat` on a path that does not exist (`os.IsNotExist` holds). -/
  | notExist (path : Bytes)
  /-- Any other failure of a system call (`open`, `fcntl`) on the path. -/
  | sys (op : String) (path : Bytes)
  deriving DecidableEq, Repr

/-- How a Go call can fail: it returns an error, or it panics. -/
inductive Fault where
  | err (e : Error)
  | panic (why : String)
  deriving DecidableEq, Repr

/-! ## Regular expressions (lines 24-31) -/

/-- The class `[^\W_]`: ASCII letters and digits. -/
def isAlnum (c : Char) : Bool :=
  (48 ≤ c.toNat && c.toNat ≤ 57) || (65 ≤ c.toNat && c.toNat ≤ 90) ||
    (97 ≤ c.toNat && c.toNat ≤ 122)

/-- Matches `[^\W_]{n}` at the head of the input and returns what follows. -/
def matchAlnum : Nat → Bytes → Option Bytes
  | 0, s => some s
  | _ + 1, [] => none
  | n + 1, c :: s => if isAlnum c then matchAlnum n s else none

/-- Matches the one character `c` at the head of the input. -/
def matchChar (c : Char) : Bytes → Option Bytes
  | [] => none
  | d :: s => if d = c then some s else none

/-- The body `(?:[^\W_]{6}-){2}[^\W_]{2}` of the three patterns, matched at the
head of the input; returns what follows the match. -/
def midBody (s : Bytes) : Option Bytes :=
  (matchAlnum 6 s).bind fun s =>
  (matchChar '-' s).bind fun s =>
  (matchAlnum 6 s).bind fun s =>
  (matchChar '-' s).bind fun s =>
  matchAlnum 2 s

/-- The pattern body followed by `$`, tried at the start of `s` only. -/
def midAtStart (s : Bytes) : Bool :=
  midBody s == some []

/-- Go `MidRe.MatchString`: `MidRe` is `((?:[^\W_]{6}-){2}[^\W_]{2})$`.  It has no
`^`, so the search may start at any position of the input. -/
def MidRe.MatchString (id : Bytes) : Bool :=
  id.tails.any midAtStart

/-- Go `HfRe.MatchString`: `^(?:[^\W_]{6}-){2}[^\W_]{2}-H$`. -/
def HfRe.MatchString (s : Bytes) : Bool :=
  midBody s == some "-H".toList

/-- Go `DfRe.MatchString`: `^(?:[^\W_]{6}-){2}[^\W_]{2}-D$`. -/
def DfRe.MatchString (s : Bytes) : Bool :=
  midBody s == some "-D".toList

/-! ## Constants and `trim` (lines 33-40) -/

/-- Go `fmt.Sprintf(pathErr, p)` with `pathErr = "The path: %s is not a directory"`. -/
def pathErr (p : Bytes) : Bytes :=
  "The path: ".toList ++ p ++ " is not a directory".toList

/-- Go `fmt.Sprintf(fileErr, p)` with `fileErr = "The path: %s is not a regular file"`. -/
def fileErr (p : Bytes) : Bytes :=
  "The path: ".toList ++ p ++ " is not a regular file".toList

/-- Go `bytes.TrimRight(s, cutset)`. -/
def trimRight (cutset : Bytes) (s : Bytes) : Bytes :=
  (s.reverse.dropWhile fun c => cutset.contains c).reverse

/-- Go `bytes.TrimLeft(s, cutset)`. -/
def trimLeft (cutset : Bytes) (s : Bytes) : Bytes :=
  s.dropWhile fun c => cutset.contains c

/-- Go `bytes.Trim(s, cutset)`. -/
def bytesTrim (cutset : Bytes) (s : Bytes) : Bytes :=
  trimRight cutset (trimLeft cutset s)

/-- Go `trim`: `bytes.TrimRight(s, "\n")`. -/
def trim (s : Bytes) : Bytes :=
  trimRight "\n".toList s

/-! ## Package `path` -/

/-- Splits a path at every `/`. -/
def splitSlash : Bytes → List Bytes
  | [] => [[]]
  | c :: s =>
    if c = '/' then [] :: splitSlash s
    else
      match splitSlash s with
      | [] => [[c]]
      | x :: xs => (c :: x) :: xs

/-- One element of `path.Clean`; `stack` holds the kept elements, last first. -/
def cleanStep (rooted : Bool) (stack : List Bytes) (elt : Bytes) : List Bytes :=
  if elt = [] ∨ elt = ".".toList then stack
  else if elt = "..".toList then
    match stack with
    | top :: below =>
      if top = "..".toList then (if rooted then stack else elt :: stack) else below
    | [] => if rooted then stack else [elt]
  else elt :: stack

/-- Go `path.Clean`. -/
def pathClean (p : Bytes) : Bytes :=
  if p = [] then ".".toList
  else
    let rooted := p.head? = some '/'
    let kept := ((splitSlash p).foldl (cleanStep rooted) []).reverse
    let body := "/".toList.intercalate kept
    if rooted then '/' :: body
    else if body = [] then ".".toList else body

/-- Go `path.Join(a, b)`. -/
def pathJoin (a b : Bytes) : Bytes :=
  if a = [] ∧ b = [] then []
  else if a = [] then pathClean b
  else if b = [] then pathClean a
  else pathClean (a ++ '/' :: b)

/-- Go `path.Base`. -/
def pathBase (p : Bytes) : Bytes :=
  if p = [] then ".".toList
  else
    let q := (p.reverse.dropWhile fun c => c = '/')
    let b := (q.takeWhile fun c => c ≠ '/').reverse
    if b = [] then "/".toList else b

/-! ## The file system -/

/-- What `os.Stat` reports for a path. -/
inductive StatResult where
  /-- The call fails and `os.IsNotExist(err)` holds. -/
  | notExist
  /-- The call fails with another error (permission, not a directory, ...). -/
  | failed
  | dir
  | regular
  /-- It exists and is neither a directory nor a regular file. -/
  | other
  deriving DecidableEq, Repr

/-- The part of the file system that `NewMsg` observes. -/
structure World where
  /-- Result of `os.Stat`. -/
  stat : Bytes → StatResult
  /-- Whether `os.OpenFile(path, O_RDWR, 0640)` succeeds. -/
  canOpen : Bytes → Bool
  /-- Whether `FcntlFlock(fd, F_SETLK, ...)` succeeds on the opened file. -/
  canLock : Bytes → Bool
  /-- The bytes of the file at the path. -/
  content : Bytes → Bytes
  /-- Whether `os.OpenFile(path, O_CREAT|O_RDWR, 0640)` can create the missing file. -/
  canCreate : Bytes → Bool := fun _ => true

/-- File-system calls made by `NewMsg` and `Close`, with whether they succeeded. -/
inductive Op where
  | stat (path : Bytes)
  | openRW (path : Bytes) (ok : Bool)
  | setlk (path : Bytes) (ok : Bool)
  /-- The call `FcntlFlock(fd, F_UNLCK, ...)` on the file opened at the path. -/
  | unlock (path : Bytes)
  /-- The call `Close()` on the file opened at the path. -/
  | close (path : Bytes)
  deriving DecidableEq, Repr

/-- Go `checkFile` (lines 449-465), after its `os.Stat(p)`. -/
def checkFile (w : World) (p : Bytes) : Except Fault Unit :=
  match w.stat p with
  | .notExist => .error (.err (.notExist p))
  | .failed => .error (.panic "nil pointer dereference: stat.Mode()")
  | .regular => .ok ()
  | .dir => .error (.err (.errorf (fileErr p)))
  | .other => .error (.err (.errorf (fileErr p)))

/-- Go `fmt.Sprintf("%s-H", id)`. -/
def hdrName (id : Bytes) : Bytes :=
  id ++ "-H".toList

/-- Go `fmt.Sprintf("%s-D", id)`. -/
def dtaName (id : Bytes) : Bytes :=
  id ++ "-D".toList

/-- Go `checkPaths` (lines 424-447): the calls it makes and its result
`(hdrPath, dataPath)`.  The second `checkFile` is given `hdrPath` again, as in
the source. -/
def checkPaths (w : World) (p id : Bytes) : List Op × Except Fault (Bytes × Bytes) :=
  match w.stat p with
  | .notExist => ([.stat p], .error (.err (.notExist p)))
  | .failed => ([.stat p], .error (.panic "nil pointer dereference: stat.IsDir()"))
  | .regular => ([.stat p], .error (.err (.errorf (pathErr p))))
  | .other => ([.stat p], .error (.err (.errorf (pathErr p))))
  | .dir =>
    let hdrPath := pathJoin p (hdrName id)
    match checkFile w hdrPath with
    | .error f => ([.stat p, .stat hdrPath], .error f)
    | .ok () =>
      let dataPath := pathJoin p (dtaName id)
      match checkFile w hdrPath with
      | .error f => ([.stat p, .stat hdrPath, .stat hdrPath], .error f)
      | .ok () => ([.stat p, .stat hdrPath, .stat hdrPath], .ok (hdrPath, dataPath))

/-! ## `bufio.Reader` and `make` -/

/-- Go `(*bufio.Reader).ReadBytes(delim)` on the unread bytes: the bytes up to and
including the first `delim`, no error, and the reader after them; when the
input ends first, the bytes read so far together with `io.EOF`. -/
def ReadBytes (delim : Char) : Bytes → Bytes × Option Error × Bytes
  | [] => ([], some .eof, [])
  | c :: s =>
    if c = delim then ([c], none, s)
    else
      let res := ReadBytes delim s
      (c :: res.1, res.2.1, res.2.2)

/-- Go `(*bufio.Reader).Read(p)` with `len(p) = n`: the bytes copied into `p`, the
error, and the reader after the call.  A zero-length read returns `0, nil`; at
the end of the input a longer one returns `0, io.EOF`. -/
def Read (n : Nat) (r : Bytes) : Bytes × Option Error × Bytes :=
  if n = 0 then ([], none, r)
  else if r = [] then ([], some .eof, [])
  else (r.take n, none, r.drop n)

/-- Largest allocation the run time accepts (`maxAlloc` on linux/amd64). -/
def maxAlloc : Int := 2 ^ 48

/-- Go `make([]byte, n)`: the length of the new slice; panics
(`makeslice: len out of range`) when `n` is negative or above `maxAlloc`. -/
def makeBytes (n : Int) : Except Fault Nat :=
  if n < 0 ∨ maxAlloc < n then .error (.panic "makeslice: len out of range")
  else .ok n.toNat

/-- Go `int` arithmetic: the result of an operation reduced to 64 bits. -/
def wrap64 (x : Int) : Int :=
  (x + 2 ^ 63) % 2 ^ 64 - 2 ^ 63

/-! ## Package `fmt`: the scanner `ss`

Every scan in `spoolfile.go` runs with `nlIsSpace = false`.  The integer
scanner follows the go1.10 library the package was written against: under
`%v` a leading `0` selects octal and `0x` hexadecimal. -/

/-- Shorthand for `s.errorString(msg)`. -/
def scanError {α : Type} (msg : String) : Except Fault α :=
  .error (.err (.scan msg))

/-- Go `fmt.isSpace`: the table `space` of `scan.go`. -/
def isSpace (c : Char) : Bool :=
  let n := c.toNat
  (0x09 ≤ n && n ≤ 0x0d) || n == 0x20 || n == 0x85 || n == 0xa0 || n == 0x1680 ||
    (0x2000 ≤ n && n ≤ 0x200a) || n == 0x2028 || n == 0x2029 || n == 0x202f ||
    n == 0x205f || n == 0x3000

/-- Go `ss.SkipSpace` with `nlIsSpace = false`. -/
def SkipSpace : Bytes → Except Fault Bytes
  | [] => .ok []
  | c :: s =>
    if c = '\r' ∧ s.head? = some '\n' then SkipSpace s
    else if c = '\n' then scanError "unexpected newline"
    else if isSpace c then SkipSpace s
    else .ok (c :: s)

/-- Go `ss.notEOF`: panics with `io.EOF`, which the scanner returns as the error. -/
def notEOF (s : Bytes) : Except Fault Unit :=
  if s = [] then .error (.err .eof) else .ok ()

/-- Go `ss.convertString` for the verbs `%s` and `%v`: the next space-delimited
word and the input after it. -/
def convertString (s : Bytes) : Except Fault (Bytes × Bytes) := do
  let s ← SkipSpace s
  notEOF s
  let s ← SkipSpace s
  pure (s.span fun c => !isSpace c)

/-- Go `ss.accept(ok)`: consumes the next rune when it is one of `ok`. -/
def accept (ok : Bytes) : Bytes → Option Char × Bytes
  | [] => (none, [])
  | c :: s => if ok.contains c then (some c, s) else (none, c :: s)

def decimalDigits : Bytes := "0123456789".toList

def octalDigits : Bytes := "01234567".toList

def hexadecimalDigits : Bytes := "0123456789aAbBcCdDeEfF".toList

/-- Go `ss.scanBasePrefix` (only under `%v`): base, digit set, whether a zero has
been taken into the token, and the input after the base marker. -/
def scanBasePrefix : Bytes → (Nat × Bytes × Bool) × Bytes
  | [] => ((10, decimalDigits, false), [])
  | c :: s =>
    if c = '0' then
      match s with
      | [] => ((8, octalDigits, true), [])
      | d :: t =>
        if d = 'x' ∨ d = 'X' then ((16, hexadecimalDigits, true), t)
        else ((8, octalDigits, true), d :: t)
    else ((10, decimalDigits, false), c :: s)

/-- Go `ss.scanNumber`: the run of digits at the head of the input. -/
def scanNumber (digits : Bytes) (haveDigits : Bool) (s : Bytes) :
    Except Fault (Bytes × Bytes) :=
  if haveDigits then .ok (s.span fun c => digits.contains c)
  else if s = [] then .error (.err .eof)
  else if (s.span fun c => digits.contains c).1 = [] then scanError "expected integer"
  else .ok (s.span fun c => digits.contains c)

/-- Value of a digit of `strconv.ParseUint`. -/
def digitVal (c : Char) : Nat :=
  if c.toNat ≤ 57 then c.toNat - 48
  else if 97 ≤ c.toNat then c.toNat - 87
  else c.toNat - 55

/-- Go `strconv.ParseUint` on a run of digits of the base, without the range check. -/
def parseUint (base : Nat) (tok : Bytes) : Nat :=
  tok.foldl (fun n c => n * base + digitVal c) 0

/-- Go `strconv.ParseInt(tok, base, 64)` on sign and digits: fails outside `int64`. -/
def ParseInt (neg : Bool) (base : Nat) (tok : Bytes) : Except Fault Int :=
  let un := parseUint base tok
  if neg then
    if 2 ^ 63 < un then .error (.err (.range ('-' :: tok))) else .ok (-(un : Int))
  else
    if 2 ^ 63 ≤ un then .error (.err (.range tok)) else .ok (un : Int)

/-- Go `ss.scanInt(verb, 64)` for the verbs `%d` and `%v`. -/
def scanInt (verb : Char) (s : Bytes) : Except Fault (Int × Bytes) := do
  let s ← SkipSpace s
  notEOF s
  let sgn := accept "+-".toList s
  let pre := if verb = 'v' then scanBasePrefix sgn.2 else ((10, decimalDigits, false), sgn.2)
  let num ← scanNumber pre.1.2.1 pre.1.2.2 pre.2
  let i ← ParseInt (sgn.1 == some '-') pre.1.1 num.1
  pure (i, num.2)

/-- Go `ss.scanRune` (verb `%c`): the next rune, whatever it is. -/
def scanRune : Bytes → Except Fault (Char × Bytes)
  | [] => .error (.err .eof)
  | c :: s => .ok (c, s)

/-- End of `ss.doScan` with `nlIsEnd = true` (`Fscanln`): only spaces may
precede the newline or the end of the input. -/
def endLine : Bytes → Except Fault Bytes
  | [] => .ok []
  | c :: s =>
    if c = '\n' then .ok s
    else if isSpace c then endLine s
    else scanError "expected newline"

/-- Go `ss.advance` on a literal of the format: `mustReadRune`, then compare. -/
def advanceLit (c : Char) : Bytes → Except Fault Bytes
  | [] => .error (.err .unexpectedEOF)
  | d :: s => if d = c then .ok s else scanError "input does not match format"

/-- Go `ss.advance` on a run of literals of the format. -/
def advanceLits : Bytes → Bytes → Except Fault Bytes
  | [], s => .ok s
  | c :: lits, s =>
    match advanceLit c s with
    | .error f => .error f
    | .ok s => advanceLits lits s

/-- Input spaces other than newline are skipped (`for isSpace(inputc) && inputc != '\n'`). -/
def skipBlanks (s : Bytes) : Bytes :=
  s.dropWhile fun c => isSpace c && c != '\n'

/-- Go `ss.advance` on a newline of the format: spaces, then newline or end of input. -/
def advanceNewline (s : Bytes) : Except Fault Bytes :=
  match skipBlanks s with
  | [] => .ok []
  | c :: t => if c = '\n' then .ok t else scanError "newline in format does not match input"

/-- Go `ss.advance` on a space of the format that follows no newline: it must meet
a space other than newline, or the end of the input. -/
def advanceSpace : Bytes → Except Fault Bytes
  | [] => .ok []
  | c :: t =>
    if !isSpace c then scanError "expected space in input to match format"
    else if c = '\n' then scanError "newline in input does not match format"
    else .ok (skipBlanks (c :: t))

/-- Go `fmt.Fscanln(r, &b)` with `b []byte`: the word and the reader after the line. -/
def Fscanln_bytes (r : Bytes) : Except Fault (Bytes × Bytes) := do
  let w ← convertString r
  let r ← endLine w.2
  pure (w.1, r)

/-- Go `fmt.Fscanln(r, &tm.User, &tm.UID, &tm.GID)`. -/
def Fscanln_bytes_int_int (r : Bytes) : Except Fault (Bytes × Int × Int × Bytes) := do
  let w ← convertString r
  let a ← scanInt 'v' w.2
  let b ← scanInt 'v' a.2
  let r ← endLine b.2
  pure (w.1, a.1, b.1, r)

/-- Go `fmt.Fscanln(r, &tm.Received, &tm.WarnCount)`. -/
def Fscanln_int_int (r : Bytes) : Except Fault (Int × Int × Bytes) := do
  let a ← scanInt 'v' r
  let b ← scanInt 'v' a.2
  let r ← endLine b.2
  pure (a.1, b.1, r)

/-- Go `fmt.Sscanf(line, marker + " %s %d\n", &name, &chars)` where `marker` is
`-acl`, `-aclc` or `-aclm`. -/
def Sscanf_acl (marker : Bytes) (line : Bytes) : Except Fault (Bytes × Int) := do
  let s ← advanceLits marker line
  let s ← advanceSpace s
  let s ← SkipSpace s
  let name ← convertString s
  let s ← advanceSpace name.2
  let s ← SkipSpace s
  let chars ← scanInt 'd' s
  let _ ← advanceNewline chars.2
  pure (name.1, chars.1)

/-- Go `fmt.Sscanf(line, "%s ", &key)`. -/
def Sscanf_key (line : Bytes) : Except Fault Bytes := do
  let s ← SkipSpace line
  let key ← convertString s
  let _ ← advanceSpace key.2
  pure key.1

/-- Go `fmt.Sscanf(line, "%d", &n)`. -/
def Sscanf_int (line : Bytes) : Except Fault Int := do
  let s ← SkipSpace line
  let n ← scanInt 'd' s
  pure n.1

/-- Go `fmt.Sscanf(line, "%d%c ", &length, &flag)`. -/
def Sscanf_hdr (line : Bytes) : Except Fault (Int × Char) := do
  let s ← SkipSpace line
  let length ← scanInt 'd' s
  let flag ← scanRune length.2
  let _ ← advanceSpace flag.2
  pure (length.1, flag.1)

/-! ## `Msg` (lines 42-65) -/

/-- Go `map[string][]byte`, newest binding first. -/
abbrev GoMap := List (Bytes × Bytes)

/-- The statement `m[k] = v`. -/
def GoMap.set (m : GoMap) (k v : Bytes) : GoMap :=
  (k, v) :: m

/-- The expression `m[k]`, `none` when the key is absent. -/
def GoMap.get (m : GoMap) (k : Bytes) : Option Bytes :=
  m.lookup k

/-- The struct `Msg`.  The handles `hf` and `df` are named by the path they
were opened on; the mutex `mx` has no content. -/
structure Msg where
  ID : Bytes
  User : Bytes
  UID : Int
  GID : Int
  Sender : Bytes
  Received : Int
  WarnCount : Int
  ACL : GoMap
  Aclc : GoMap
  Aclm : GoMap
  DashVars : GoMap
  NonRcpts : List Bytes
  NumRcpts : Int
  Rcpts : List Bytes
  Hdrs : List Bytes
  RawHdrs : List Bytes
  HdrFile : Bytes
  DtaFile : Bytes
  hf : Bytes
  df : Bytes
  deriving DecidableEq, Repr

/-! ## `NewMsg` (lines 166-422) -/

/-- The value `spoolErr`, and the error of line 207, for the given path. -/
def spoolErr (path : Bytes) : Error :=
  .errorf ("Format error in spool file: ".toList ++ path)

/-- The four mappings filled by the control-variable loop. -/
structure Vars where
  ACL : GoMap
  Aclc : GoMap
  Aclm : GoMap
  DashVars : GoMap
  deriving DecidableEq, Repr

/-- Which mapping and which marker an ACL line selects (lines 287-296). -/
inductive AclKind where
  | aclc
  | aclm
  | acl
  deriving DecidableEq, Repr

/-- Lines 287-296: the kind chosen from the start of the line. -/
def aclKind (line : Bytes) : AclKind :=
  if "-aclc".toList.isPrefixOf line then .aclc
  else if "-aclm".toList.isPrefixOf line then .aclm
  else .acl

/-- The literal that starts the format string `fs` of the kind. -/
def AclKind.marker : AclKind → Bytes
  | .aclc => "-aclc".toList
  | .aclm => "-aclm".toList
  | .acl => "-acl".toList

/-- The statement `mapref[name] = v` for the mapping of the kind. -/
def Vars.setAcl (v : Vars) (k : AclKind) (name val : Bytes) : Vars :=
  match k with
  | .aclc => { v with Aclc := v.Aclc.set name val }
  | .aclm => { v with Aclm := v.Aclm.set name val }
  | .acl => { v with ACL := v.ACL.set name val }

/-- Lines 297-316: one ACL variable, from its already read first line.  Returns
the name, the stored value and the reader after the closing newline. -/
def aclStep (hp : Bytes) (line : Bytes) (r : Bytes) : Except Fault (Bytes × Bytes × Bytes) :=
  match Sscanf_acl (aclKind line).marker line with
  | .error f => .error f
  | .ok (name, chars) =>
    match makeBytes chars with
    | .error f => .error f
    | .ok size =>
      match Read size r with
      | (_, some e, _) => .error (.err e)
      | (val, none, r) =>
        if val.length ≠ size then .error (.err (spoolErr hp))
        else
          match ReadBytes '\n' r with
          | (_, some e, _) => .error (.err e)
          | (rem, none, r) =>
            if rem.length ≠ 1 then .error (.err (spoolErr hp))
            else .ok (name, trim val, r)

/-- Lines 272-325: the control-variable loop.  Returns the mappings, the first
line that does not start with `-`, and the reader after it.  Every round
consumes at least one byte, so `fuel` above the input length is never used up. -/
def dashLoop (hp : Bytes) : Nat → Vars → Bytes → Except Fault (Vars × Bytes × Bytes)
  | 0, _, _ => .error (.panic "out of fuel")
  | fuel + 1, v, r =>
    match ReadBytes '\n' r with
    | (_, some e, _) => .error (.err e)
    | (line, none, r) =>
      if !("-".toList.isPrefixOf line) then .ok (v, line, r)
      else if "-acl".toList.isPrefixOf line then
        match aclStep hp line r with
        | .error f => .error f
        | .ok (name, val, r) => dashLoop hp fuel (v.setAcl (aclKind line) name val) r
      else
        match Sscanf_key line with
        | .error f => .error f
        | .ok key => dashLoop hp fuel { v with DashVars := v.DashVars.set key (trim line) } r

/-- Lines 332-346: the non-recipients.  Returns `tm.NonRcpts`, the value of
`line` afterwards and the reader. -/
def nonRcpts (line : Bytes) (r : Bytes) : Except Fault (List Bytes × Bytes × Bytes) :=
  if line ≠ "XX\n".toList then
    match ReadBytes '\n' r with
    | (_, some e, _) => .error (.err e)
    | (next, none, r) =>
      if "N".toList.isPrefixOf next || "Y".toList.isPrefixOf next then
        .ok ([trim line, trim next], next, r)
      else .ok ([trim line], next, r)
  else .ok ([[]], line, r)

/-- Lines 361-366: the loop `for i := 0; i < tm.NumRcpts-1; i++`, run `count` times. -/
def rcptLoop : Nat → List Bytes → Bytes → Except Fault (List Bytes × Bytes)
  | 0, acc, r => .ok (acc, r)
  | count + 1, acc, r =>
    match ReadBytes '\n' r with
    | (_, some e, _) => .error (.err e)
    | (line, none, r) => rcptLoop count (acc ++ [trim line]) r

/-- Lines 353-366: the recipients, for the declared count. -/
def rcpts (hp : Bytes) (numRcpts : Int) (r : Bytes) : Except Fault (List Bytes × Bytes) :=
  match ReadBytes '\n' r with
  | (_, some e, _) => .error (.err e)
  | (line, none, r) =>
    if line.length ≤ 1 then .error (.err (spoolErr hp))
    else rcptLoop (wrap64 (numRcpts - 1)).toNat [trim line] r

/-- Lines 368-376: the empty line before the header records. -/
def separator (hp : Bytes) (r : Bytes) : Except Fault Bytes :=
  match ReadBytes '\n' r with
  | (_, some e, _) => .error (.err e)
  | (line, none, r) => if line ≠ "\n".toList then .error (.err (spoolErr hp)) else .ok r

/-- State of the header-record loop: `created`, `tm.Hdrs`, `tm.RawHdrs`. -/
structure HdrState where
  created : Bool
  Hdrs : List Bytes
  RawHdrs : List Bytes
  deriving DecidableEq, Repr

/-- Lines 410-417: one record is added to both sequences.  Slicing `line[5:]`
panics when the record is shorter than five bytes. -/
def HdrState.add (st : HdrState) (line : Bytes) : Except Fault HdrState :=
  if line.length < 5 then .error (.panic "slice bounds out of range")
  else if !st.created then
    .ok { created := true, Hdrs := [trim (line.drop 5)], RawHdrs := [trim line] }
  else
    .ok { st with Hdrs := st.Hdrs ++ [trim (line.drop 5)], RawHdrs := st.RawHdrs ++ [trim line] }

/-- Lines 397-408: the bytes of the record beyond its first line are read when
`rsize > 0`.  Returns the whole record and the reader after it. -/
def hdrRecord (hp : Bytes) (length : Int) (line : Bytes) (r : Bytes) :
    Except Fault (Bytes × Bytes) :=
  let rsize := wrap64 (wrap64 (length - (line.length : Int)) + 5)
  if 0 < rsize then
    match makeBytes rsize with
    | .error f => .error f
    | .ok size =>
      match Read size r with
      | (_, some e, _) => .error (.err e)
      | (remaining, none, r) =>
        if remaining.length ≠ size then .error (.err (spoolErr hp))
        else .ok (line ++ remaining, r)
  else .ok (line, r)

/-- Lines 382-418: the header-record loop; `io.EOF` from `ReadBytes` ends it.
Every round consumes at least one byte, so `fuel` above the input length is
never used up. -/
def hdrLoop (hp : Bytes) : Nat → HdrState → Bytes → Except Fault HdrState
  | 0, _, _ => .error (.panic "out of fuel")
  | fuel + 1, st, r =>
    match ReadBytes '\n' r with
    | (_, some e, _) => if e = .eof then .ok st else .error (.err e)
    | (line, none, r) =>
      match Sscanf_hdr line with
      | .error f => .error f
      | .ok (length, flag) =>
        if flag = '*' then hdrLoop hp fuel st r
        else
          match hdrRecord hp length line r with
          | .error f => .error f
          | .ok (line, r) =>
            match st.add line with
            | .error f => .error f
            | .ok st => hdrLoop hp fuel st r

/-- The statement `if cond { err = e; return }`. -/
def failIf (cond : Prop) [Decidable cond] (e : Error) : Except Fault Unit :=
  if cond then .error (.err e) else .ok ()

/-- Lines 229-422: the header file is parsed into the `Msg`. -/
def parseHeader (id hp dp : Bytes) (r : Bytes) : Except Fault Msg := do
  let hid := pathBase hp
  let first ← Fscanln_bytes r
  failIf (first.1 ≠ hid) (spoolErr hp)
  let own ← Fscanln_bytes_int_int first.2
  let snd ← Fscanln_bytes own.2.2.2
  let sender := bytesTrim "\n><".toList snd.1
  let tim ← Fscanln_int_int snd.2
  let dash ← dashLoop hp (tim.2.2.length + 1) ⟨[], [], [], []⟩ tim.2.2
  failIf (dash.2.1.length = 0) (spoolErr hp)
  let non ← nonRcpts dash.2.1 dash.2.2
  let num ← Sscanf_int non.2.1
  let rc ← rcpts hp num non.2.2
  let r ← separator hp rc.2
  let hdrs ← hdrLoop hp (r.length + 1) ⟨false, [], []⟩ r
  pure {
    ID := id, User := own.1, UID := own.2.1, GID := own.2.2.1, Sender := sender,
    Received := tim.1, WarnCount := tim.2.1,
    ACL := dash.1.ACL, Aclc := dash.1.Aclc, Aclm := dash.1.Aclm, DashVars := dash.1.DashVars,
    NonRcpts := non.1, NumRcpts := num, Rcpts := rc.1,
    Hdrs := hdrs.Hdrs, RawHdrs := hdrs.RawHdrs,
    HdrFile := hp, DtaFile := dp, hf := hp, df := dp }

/-- Lines 200-209: the first line of the data file is compared with `did`. -/
def checkData (dp : Bytes) (r : Bytes) : Except Fault Unit := do
  let did := pathBase dp
  let first ← Fscanln_bytes r
  failIf (first.1 ≠ did) (spoolErr dp)

/-- What a call of `NewMsg` did and produced: the file-system calls in order,
and the `Msg` or the fault. -/
structure Run where
  ops : List Op
  out : Except Fault Msg

/-- Go `NewMsg(p, id)` in the world `w`. -/
def NewMsg (w : World) (p id : Bytes) : Run :=
  if !MidRe.MatchString id then
    ⟨[], .error (.err (.errorf ("Invalid exim id: ".toList ++ id)))⟩
  else
    match checkPaths w p id with
    | (ops, .error f) => ⟨ops, .error f⟩
    | (ops, .ok (hp, dp)) =>
      if !w.canOpen dp then ⟨ops ++ [.openRW dp false], .error (.err (.sys "open" dp))⟩
      else if !w.canLock dp then
        ⟨ops ++ [.openRW dp true, .setlk dp false], .error (.err (.sys "fcntl" dp))⟩
      else
        match checkData dp (w.content dp) with
        | .error f => ⟨ops ++ [.openRW dp true, .setlk dp true], .error f⟩
        | .ok () =>
          if !w.canOpen hp then
            ⟨ops ++ [.openRW dp true, .setlk dp true, .openRW hp false],
              .error (.err (.sys "open" hp))⟩
          else if !w.canLock hp then
            ⟨ops ++ [.openRW dp true, .setlk dp true, .openRW hp true, .setlk hp false],
              .error (.err (.sys "fcntl" hp))⟩
          else
            ⟨ops ++ [.openRW dp true, .setlk dp true, .openRW hp true, .setlk hp true],
              parseHeader id hp dp (w.content hp)⟩

/-! ## `Msg.String` (lines 109-142) -/

/-- Lines 129-139: the body loop of `String`.  A line is written when
`ReadBytes` returns no error; on `io.EOF` the loop ends.  Every round consumes
at least one byte, so `fuel` above the input length is never used up. -/
def bodyLoop : Nat → Bytes → Bytes → Except Fault Bytes
  | 0, _, _ => .error (.panic "out of fuel")
  | fuel + 1, b, dr =>
    match ReadBytes '\n' dr with
    | (_, some e, _) => if e = .eof then .ok b else .error (.err e)
    | (lineb, none, dr) => bodyLoop fuel (b ++ lineb) dr

/-- The headers as `String` writes them: each entry of `Hdrs` and a newline,
then one more newline. -/
def headerText (hdrs : List Bytes) : Bytes :=
  hdrs.foldl (fun b h => b ++ h ++ "\n".toList) [] ++ "\n".toList

/-- Go `(*Msg).String()` in the world `w`: the data file is read from its start. -/
def Msg.String (w : World) (m : Msg) : Except Fault Bytes :=
  let b := headerText m.Hdrs
  let dr := w.content m.df
  match ReadBytes '\n' dr with
  | (_, some e, _) => .error (.err e)
  | (_, none, dr) => bodyLoop (dr.length + 1) b dr

/-! ## `Msg.CreateFile` (lines 67-107) -/

/-- The world in which the path `fn` is a regular file with the bytes `c`. -/
def World.withFile (w : World) (fn c : Bytes) : World :=
  { w with
    stat := fun q => if q = fn then .regular else w.stat q
    canOpen := fun q => if q = fn then true else w.canOpen q
    content := fun q => if q = fn then c else w.content q }

/-- The bytes of a file that held `old` after `new` was written from its start:
the file is opened without `O_TRUNC`, so what lies beyond the written bytes
stays. -/
def writeAtStart (old new : Bytes) : Bytes :=
  new ++ old.drop new.length

/-- Go `(*Msg).CreateFile(fn)` in the world `w`: the world after a call that
returns no error.  The file is created when it is missing and opened as it is
otherwise; the headers and the empty line are written, then the data file is
read from its start by the loop of lines 95-105, which is the loop of `String`
with the file as its sink. -/
def Msg.CreateFile (w : World) (m : Msg) (fn : Bytes) : Except Fault World :=
  let fresh : Bool := w.stat fn = .notExist
  let opened := if fresh then w.canCreate fn else w.canOpen fn
  if !opened then .error (.err (.sys "open" fn))
  else
    let old := if fresh then [] else w.content fn
    let b := headerText m.Hdrs
    let w1 := w.withFile fn (writeAtStart old b)
    let dr := w1.content m.df
    match ReadBytes '\n' dr with
    | (_, some e, _) => .error (.err e)
    | (_, none, dr) =>
      match bodyLoop (dr.length + 1) b dr with
      | .error f => .error f
      | .ok written => .ok (w.withFile fn (writeAtStart old written))

/-! ## Sample spool pairs used to evaluate the code -/

/-- A world with the directory `/spool`, one spool pair in it, and nothing else:
`hdrName`, `dtaName` are the paths of the pair and `hdr`, `dta` their bytes. -/
def spoolWorld (hdrName dtaName hdr dta : Bytes) : World where
  stat := fun q =>
    if q = "/spool".toList then .dir
    else if q = hdrName ∨ q = dtaName then .regular
    else .notExist
  canOpen := fun q => q = hdrName ∨ q = dtaName
  canLock := fun _ => true
  content := fun q => if q = hdrName then hdr else if q = dtaName then dta else []

/-- A header file whose header records are `To:` and a folded `Subject:`. -/
def sampleHdr : Bytes :=
  ("1eXn2s-0008DG-EX-H\nexim 93 93\n<andrew@kudusoft.home>\n1515239630 0\n" ++
   "-helo_name alcazar.home\nNN\n1\nr@x\n\n008T To: a@b\n014  Subject:\n x y\n").toList

/-- A data file: the identity line and a two-line body. -/
def sampleDta : Bytes :=
  "1eXn2s-0008DG-EX-D\nThis is a test mailing\n\n".toList

/-- The pair `sampleHdr`, `sampleDta` stored under the id `1eXn2s-0008DG-EX`. -/
def sampleWorld : World :=
  spoolWorld "/spool/1eXn2s-0008DG-EX-H".toList "/spool/1eXn2s-0008DG-EX-D".toList
    sampleHdr sampleDta

/-! ## Vocabulary of the statements -/

/-- The character of the decimal digit `d`. -/
def digitChar (d : Nat) : Char :=
  Char.ofNat (48 + d)

/-- Digits of `n`, most significant first, put before `acc`. -/
def decimalAux : Nat → Nat → Bytes → Bytes
  | 0, _, acc => acc
  | fuel + 1, n, acc =>
    if n / 10 = 0 then digitChar (n % 10) :: acc
    else decimalAux fuel (n / 10) (digitChar (n % 10) :: acc)

/-- The decimal numeral of a natural number, without leading zeros. -/
def decimal (n : Nat) : Bytes :=
  decimalAux (n + 1) n []

/-- The decimal numeral of an integer: a `-` before the digits of a negative one. -/
def decimalInt (i : Int) : Bytes :=
  if i < 0 then '-' :: decimal i.natAbs else decimal i.natAbs

/-- A word: not empty and without any of the scanner's space characters. -/
def isWord (t : Bytes) : Bool :=
  !t.isEmpty && t.all fun c => !isSpace c

/-- Each line with its terminator put back, one after the other. -/
def unlines (ls : List Bytes) : Bytes :=
  (ls.map fun l => l ++ ['\n']).flatten

/-- What may follow a scanned item: the end of the input or a space character. -/
def spaceNext (rest : Bytes) : Bool :=
  rest.head?.all isSpace

/-- The first four lines of a header file written from their values:
`<id>-H`, `<user> <uid> <gid>`, `<sender>`, `<received> <warncount>`. -/
def envelopeLines (id user : Bytes) (uid gid : Int) (sender : Bytes) (received warn : Int) :
    Bytes :=
  hdrName id ++ "\n".toList ++ user ++ " ".toList ++ decimalInt uid ++ " ".toList ++
    decimalInt gid ++ "\n".toList ++ sender ++ "\n".toList ++ decimalInt received ++
    " ".toList ++ decimalInt warn ++ "\n".toList

/-- The range of Go `int`. -/
def inInt64 (i : Int) : Prop :=
  -2 ^ 63 ≤ i ∧ i < 2 ^ 63

instance (i : Int) : Decidable (inInt64 i) :=
  inferInstanceAs (Decidable (_ ∧ _))

/-- The four envelope lines of `sampleHdr`. -/
def sampleEnvelope : Bytes :=
  "1eXn2s-0008DG-EX-H\nexim 93 93\n<andrew@kudusoft.home>\n1515239630 0\n".toList

/-- The sample pair with the header file `sampleEnvelope ++ tail`. -/
def worldWithHdr (tail : Bytes) : World :=
  spoolWorld "/spool/1eXn2s-0008DG-EX-H".toList "/spool/1eXn2s-0008DG-EX-D".toList
    (sampleEnvelope ++ tail) sampleDta

/-- The sample pair with the data file `dta`. -/
def worldWithDta (dta : Bytes) : World :=
  spoolWorld "/spool/1eXn2s-0008DG-EX-H".toList "/spool/1eXn2s-0008DG-EX-D".toList
    sampleHdr dta

/-- Go `NewMsg` on the sample pair whose header file is `sampleEnvelope ++ tail`. -/
def newMsgWithHdr (tail : Bytes) : Except Fault Msg :=
  (NewMsg (worldWithHdr tail) "/spool".toList "1eXn2s-0008DG-EX".toList).out

/-- The `Msg` that `NewMsg` returns for `sampleWorld`. -/
def sampleMsg : Msg where
  ID := "1eXn2s-0008DG-EX".toList
  User := "exim".toList
  UID := 93
  GID := 93
  Sender := "andrew@kudusoft.home".toList
  Received := 1515239630
  WarnCount := 0
  ACL := []
  Aclc := []
  Aclm := []
  DashVars := [("-helo_name".toList, "-helo_name alcazar.home".toList)]
  NonRcpts := ["NN".toList]
  NumRcpts := 1
  Rcpts := ["r@x".toList]
  Hdrs := ["To: a@b".toList, "Subject:\n x y".toList]
  RawHdrs := ["008T To: a@b".toList, "014  Subject:\n x y".toList]
  HdrFile := "/spool/1eXn2s-0008DG-EX-H".toList
  DtaFile := "/spool/1eXn2s-0008DG-EX-D".toList
  hf := "/spool/1eXn2s-0008DG-EX-H".toList
  df := "/spool/1eXn2s-0008DG-EX-D".toList

/-- The sample pair in a world where `os.Stat` reports `dirStat` for `/spool`
and `dtaStat` for the data path; the data file can be opened when it is a
regular file. -/
def worldWithStat (dirStat dtaStat : StatResult) : World where
  stat := fun q =>
    if q = "/spool".toList then dirStat
    else if q = "/spool/1eXn2s-0008DG-EX-H".toList then .regular
    else if q = "/spool/1eXn2s-0008DG-EX-D".toList then dtaStat
    else .notExist
  canOpen := fun q =>
    q = "/spool/1eXn2s-0008DG-EX-H".toList ∨
      (q = "/spool/1eXn2s-0008DG-EX-D".toList ∧ dtaStat = .regular)
  canLock := fun _ => true
  content := fun q =>
    if q = "/spool/1eXn2s-0008DG-EX-H".toList then sampleHdr
    else if q = "/spool/1eXn2s-0008DG-EX-D".toList then sampleDta
    else []

/-- Go `(*Msg).Close()` (lines 144-164): the calls it makes. -/
def Msg.Close (m : Msg) : List Op :=
  [.unlock m.df, .unlock m.hf, .close m.df, .close m.hf]

/-- The files that a sequence of calls leaves open: opened with success and
not closed later. -/
def openFiles : List Op → List Bytes
  | [] => []
  | .openRW p true :: ops =>
    if ops.contains (.close p) then openFiles ops else p :: openFiles ops
  | _ :: ops => openFiles ops

/-- The locks that a sequence of calls leaves in place: set with success and
later neither released nor dropped by closing the file. -/
def heldLocks : List Op → List Bytes
  | [] => []
  | .setlk p true :: ops =>
    if ops.contains (.unlock p) || ops.contains (.close p) then heldLocks ops
    else p :: heldLocks ops
  | _ :: ops => heldLocks ops

/-- The pair `(m, err)` that the call hands to its caller; `none` when the call
panics instead of returning. -/
def Run.returned (r : Run) : Option (Option Msg × Option Error) :=
  match r.out with
  | .ok m => some (some m, none)
  | .error (.err e) => some (none, some e)
  | .error (.panic _) => none

/-- Splits a text at every line terminator. -/
def splitLines : Bytes → List Bytes
  | [] => [[]]
  | c :: s =>
    if c = '\n' then [] :: splitLines s
    else
      match splitLines s with
      | [] => [[c]]
      | x :: xs => (c :: x) :: xs

/-- Lines put together again, a line terminator between two of them. -/
def joinLines : List Bytes → Bytes
  | [] => []
  | [l] => l
  | l :: ls => l ++ '\n' :: joinLines ls

/-- A line that starts with whitespace: a space or a tab. -/
def startsBlank (l : Bytes) : Bool :=
  l.head?.any fun c => c == ' ' || c == '\t'

/-- A line put before the headers `gs` of the lines after it; `next` is the
line that follows.  When that line starts with whitespace it continues the
header that begins here. -/
def attachLine (l : Bytes) (next : Option Bytes) (gs : List Bytes) : List Bytes :=
  match next, gs with
  | some n, g :: rest => if startsBlank n then (l ++ '\n' :: g) :: rest else l :: g :: rest
  | _, _ => l :: gs

/-- The headers held by a list of lines: a header begins at a line and
includes the following lines that start with whitespace. -/
def groupHeaders : List Bytes → List Bytes
  | [] => []
  | l :: ls => attachLine l ls.head? (groupHeaders ls)

/-- The header block of a message text as the round-trip property reads it:
the text is cut at its first empty line and the lines before it are grouped
into headers. -/
def headerBlock (text : Bytes) : List Bytes :=
  groupHeaders ((splitLines text).takeWhile fun l => !l.isEmpty)

/-- A header in the shape that the re-parse can recover: its first line is not
empty and does not start with whitespace, every further line starts with
whitespace. -/
def isFoldedHeader (h : Bytes) : Bool :=
  match splitLines h with
  | [] => false
  | first :: conts => !first.isEmpty && !startsBlank first && conts.all startsBlank

/-! ## C1: the identifier check -/

/-- An identifier without a suffix of the three-group shape is rejected before
any file-system call is made. -/
theorem NewMsg_invalid_id (w : World) (p id : Bytes) (h : MidRe.MatchString id = false) :
    (NewMsg w p id).ops = [] ∧
      (NewMsg w p id).out = .error (.err (.errorf ("Invalid exim id: ".toList ++ id))) := by
  simp [NewMsg, h]

/-- C1 (fails on the code): the identifier `./1eXn2s-0008DG-EX` is not, as a
whole string, of the three-group shape, yet `MidRe` accepts it: `NewMsg` goes on
to `os.Stat`, opens and locks the pair, and returns a `Msg` instead of the
invalid-identifier error. -/
theorem C1_prefixed_id_accepted :
    midAtStart "./1eXn2s-0008DG-EX".toList = false ∧
    MidRe.MatchString "./1eXn2s-0008DG-EX".toList = true ∧
    (NewMsg sampleWorld "/spool".toList "./1eXn2s-0008DG-EX".toList).ops =
      [.stat "/spool".toList,
       .stat "/spool/1eXn2s-0008DG-EX-H".toList,
       .stat "/spool/1eXn2s-0008DG-EX-H".toList,
       .openRW "/spool/1eXn2s-0008DG-EX-D".toList true,
       .setlk "/spool/1eXn2s-0008DG-EX-D".toList true,
       .openRW "/spool/1eXn2s-0008DG-EX-H".toList true,
       .setlk "/spool/1eXn2s-0008DG-EX-H".toList true] ∧
    ((NewMsg sampleWorld "/spool".toList "./1eXn2s-0008DG-EX".toList).out.map
      fun m => (m.ID, m.HdrFile)) =
      .ok ("./1eXn2s-0008DG-EX".toList, "/spool/1eXn2s-0008DG-EX-H".toList) := by
  decide!

/-! ## Lemmas on `ReadBytes`, `Read` and `trim` -/

theorem ReadBytes_ok (d : Char) (r line r2 : Bytes)
    (h : ReadBytes d r = (line, none, r2)) :
    ∃ body, line = body ++ [d] ∧ d ∉ body ∧ r = line ++ r2 := by
  induction r generalizing line with
  | nil => simp [ReadBytes] at h
  | cons c s ih =>
    by_cases hc : c = d
    · simp [ReadBytes, hc] at h
      obtain ⟨h1, h2⟩ := h
      exact ⟨[], by simp [← h1], by simp, by simp [← h1, ← h2, hc]⟩
    · simp only [ReadBytes, hc, if_false] at h
      have h1 : line = c :: (ReadBytes d s).1 := by injection h with a _; exact a.symm
      have h2 : (ReadBytes d s).2.1 = none := by
        injection h with _ b; injection b
      have h3 : (ReadBytes d s).2.2 = r2 := by
        injection h with _ b; injection b
      obtain ⟨body, hb1, hb2, hb3⟩ := ih (ReadBytes d s).1 (by rw [← h2, ← h3])
      refine ⟨c :: body, by simp [h1, hb1], ?_, ?_⟩
      · intro hm
        rcases List.mem_cons.mp hm with e | e
        · exact hc e.symm
        · exact hb2 e
      · rw [h1, List.cons_append, ← hb3]

theorem ReadBytes_err (d : Char) (r line r2 : Bytes) (e : Error)
    (h : ReadBytes d r = (line, some e, r2)) :
    e = .eof ∧ d ∉ r ∧ line = r ∧ r2 = [] := by
  induction r generalizing line with
  | nil =>
    simp [ReadBytes] at h
    obtain ⟨h1, h2, h3⟩ := h
    exact ⟨h2.symm, by simp, h1, h3⟩
  | cons c s ih =>
    by_cases hc : c = d
    · simp [ReadBytes, hc] at h
    · simp only [ReadBytes, hc, if_false] at h
      have h1 : line = c :: (ReadBytes d s).1 := by injection h with a _; exact a.symm
      have h2 : (ReadBytes d s).2.1 = some e := by
        injection h with _ b; injection b
      have h3 : (ReadBytes d s).2.2 = r2 := by
        injection h with _ b; injection b
      obtain ⟨g1, g2, g3, g4⟩ := ih (ReadBytes d s).1 (by rw [← h2, ← h3])
      refine ⟨g1, ?_, by rw [h1, g3], g4⟩
      intro hm
      rcases List.mem_cons.mp hm with e | e
      · exact hc e.symm
      · exact g2 e

theorem trimRight_append_not_mem (cut s : Bytes) (c : Char) (hc : cut.contains c = false) (t : Bytes)
    (ht : ∀ x ∈ t, cut.contains x = true) :
    trimRight cut (s ++ c :: t) = s ++ [c] := by
  unfold trimRight
  rw [List.reverse_append, List.reverse_cons, List.append_assoc]
  have : List.dropWhile (fun c => cut.contains c) (t.reverse ++ ([c] ++ s.reverse)) = [c] ++ s.reverse := by
    rw [List.dropWhile_append_of_pos]
    · have hc2 : decide (c ∈ cut) = false := by simpa using hc
      simp [List.dropWhile, hc2]
    · intro x hx; exact ht x (by simpa using hx)
  rw [this]; simp

theorem trim_line (body : Bytes) (h : '\n' ∉ body) : trim (body ++ ['\n']) = body := by
  unfold trim
  rcases List.eq_nil_or_concat body with hb | ⟨s, c, hb⟩
  · subst hb; decide
  · subst hb
    have hc : c ≠ '\n' := fun e => h (by simp [e])
    have := trimRight_append_not_mem "\n".toList s c (by simp [hc]) ['\n'] (by simp)
    simpa using this

/-! ## Lemmas on the scanner -/

theorem bind_ok_eq {α β : Type} (a : α) (f : α → Except Fault β) :
    (Except.ok a >>= f) = f a := rfl

theorem bind_error_eq {α β : Type} (e : Fault) (f : α → Except Fault β) :
    ((Except.error e : Except Fault α) >>= f) = Except.error e := rfl

theorem digitVal_digitChar (d : Nat) (h : d < 10) : digitVal (digitChar d) = d := by
  interval_cases d <;> decide

theorem digitChar_mem (d : Nat) (h : d < 10) : decimalDigits.contains (digitChar d) = true := by
  interval_cases d <;> decide

theorem digitChar_eq_zero (d : Nat) (h : d < 10) (h0 : digitChar d = '0') : d = 0 := by
  interval_cases d <;> first | rfl | (exact absurd h0 (by decide))

theorem digit_cases (c : Char) (h : decimalDigits.contains c = true) :
    isSpace c = false ∧ c ≠ '-' ∧ c ≠ '+' ∧ c ≠ '\n' := by
  have : c = '0' ∨ c = '1' ∨ c = '2' ∨ c = '3' ∨ c = '4' ∨ c = '5' ∨ c = '6' ∨ c = '7' ∨
      c = '8' ∨ c = '9' := by
    simpa [decimalDigits] using h
  rcases this with h | h | h | h | h | h | h | h | h | h <;> subst h <;> decide

theorem space_not_digit (c : Char) (h : isSpace c = true) :
    decimalDigits.contains c = false ∧ octalDigits.contains c = false ∧
      hexadecimalDigits.contains c = false ∧ c ≠ 'x' ∧ c ≠ 'X' ∧ c ≠ '-' ∧ c ≠ '+' := by
  refine ⟨?_, ?_, ?_, ?_, ?_, ?_, ?_⟩
  · by_contra hc
    have := (digit_cases c (by simpa using hc)).1
    simp [h] at this
  · by_contra hc
    have hc : octalDigits.contains c = true := by simpa using hc
    have : c = '0' ∨ c = '1' ∨ c = '2' ∨ c = '3' ∨ c = '4' ∨ c = '5' ∨ c = '6' ∨ c = '7' := by
      simpa [octalDigits] using hc
    rcases this with e | e | e | e | e | e | e | e <;> subst e <;> exact absurd h (by decide)
  · by_contra hc
    have hc : hexadecimalDigits.contains c = true := by simpa using hc
    have : c = '0' ∨ c = '1' ∨ c = '2' ∨ c = '3' ∨ c = '4' ∨ c = '5' ∨ c = '6' ∨ c = '7' ∨
        c = '8' ∨ c = '9' ∨ c = 'a' ∨ c = 'A' ∨ c = 'b' ∨ c = 'B' ∨ c = 'c' ∨ c = 'C' ∨
        c = 'd' ∨ c = 'D' ∨ c = 'e' ∨ c = 'E' ∨ c = 'f' ∨ c = 'F' := by
      simpa [hexadecimalDigits] using hc
    rcases this with e | e | e | e | e | e | e | e | e | e | e | e | e | e | e | e | e | e |
      e | e | e | e <;> subst e <;> exact absurd h (by decide)
  all_goals (intro e; subst e; exact absurd h (by decide))

theorem parseUint_append (base : Nat) (a : Bytes) (c : Char) :
    parseUint base (a ++ [c]) = parseUint base a * base + digitVal c := by
  simp [parseUint, List.foldl_append]

theorem decimalAux_spec (fuel n : Nat) (acc : Bytes) (h : n < fuel) :
    ∃ ds, decimalAux fuel n acc = ds ++ acc ∧ ds ≠ [] ∧
      (∀ c ∈ ds, decimalDigits.contains c = true) ∧ parseUint 10 ds = n ∧
      (ds.head? = some '0' → n = 0 ∧ ds = ['0']) := by
  induction fuel generalizing n acc with
  | zero => omega
  | succ f ih =>
    unfold decimalAux
    by_cases h0 : n / 10 = 0
    · have hn : n < 10 := by omega
      have hm : n % 10 = n := Nat.mod_eq_of_lt hn
      refine ⟨[digitChar n], by simp [h0, hm], by simp, ?_, ?_, ?_⟩
      · intro c hc
        simp at hc
        subst hc
        exact digitChar_mem n hn
      · simp [parseUint, digitVal_digitChar n hn]
      · intro hh
        simp at hh
        have := digitChar_eq_zero n hn hh
        subst this
        exact ⟨rfl, by decide⟩
    · have hlt : n / 10 < f := by omega
      obtain ⟨ds, e1, e2, e3, e4, e5⟩ := ih (n / 10) (digitChar (n % 10) :: acc) hlt
      have hd : n % 10 < 10 := Nat.mod_lt _ (by norm_num)
      refine ⟨ds ++ [digitChar (n % 10)], by simp [h0, e1], by simp, ?_, ?_, ?_⟩
      · intro c hc
        rcases List.mem_append.mp hc with hc | hc
        · exact e3 c hc
        · simp at hc
          subst hc
          exact digitChar_mem _ hd
      · rw [parseUint_append, e4, digitVal_digitChar _ hd]
        omega
      · intro hh
        have : ds.head? = some '0' := by
          cases ds with
          | nil => exact absurd rfl e2
          | cons a t => simpa using hh
        exact absurd (e5 this).1 h0

theorem decimal_spec (n : Nat) :
    decimal n ≠ [] ∧ (∀ c ∈ decimal n, decimalDigits.contains c = true) ∧
      parseUint 10 (decimal n) = n ∧ ((decimal n).head? = some '0' → decimal n = ['0']) := by
  obtain ⟨ds, e1, e2, e3, e4, e5⟩ := decimalAux_spec (n + 1) n [] (by omega)
  have : decimal n = ds := by simp [decimal, e1]
  rw [this]
  exact ⟨e2, e3, e4, fun h => (e5 h).2⟩

theorem span_append_stop (p : Char → Bool) (a rest : Bytes) (ha : ∀ c ∈ a, p c = true)
    (hr : rest.head?.all (fun c => !p c) = true) :
    (a ++ rest).span p = (a, rest) := by
  rw [List.span_eq_take_drop]
  have h1 : List.takeWhile p rest = [] := by
    cases rest with
    | nil => rfl
    | cons c s =>
      have : p c = false := by simpa using hr
      simp [List.takeWhile, this]
  have h2 : List.dropWhile p rest = rest := by
    cases rest with
    | nil => rfl
    | cons c s =>
      have : p c = false := by simpa using hr
      simp [List.dropWhile, this]
  induction a with
  | nil => simp [h1, h2]
  | cons c a ih =>
    have hc : p c = true := ha c (by simp)
    have := ih (fun x hx => ha x (by simp [hx]))
    simp only [Prod.mk.injEq] at this ⊢
    rw [List.cons_append, List.takeWhile_cons, List.dropWhile_cons, hc]
    simp only [if_true]
    exact ⟨by rw [this.1], this.2⟩

theorem isWord_iff (t : Bytes) : isWord t = true ↔ t ≠ [] ∧ ∀ c ∈ t, isSpace c = false := by
  cases t <;> simp [isWord]

theorem SkipSpace_nonspace (c : Char) (s : Bytes) (h : isSpace c = false) :
    SkipSpace (c :: s) = .ok (c :: s) := by
  have h1 : c ≠ '\r' := fun e => by subst e; exact absurd h (by decide)
  have h2 : c ≠ '\n' := fun e => by subst e; exact absurd h (by decide)
  simp [SkipSpace, h1, h2, h]

theorem SkipSpace_word (t rest : Bytes) (ht : isWord t = true) :
    SkipSpace (t ++ rest) = .ok (t ++ rest) := by
  obtain ⟨h1, h2⟩ := (isWord_iff t).mp ht
  cases t with
  | nil => exact absurd rfl h1
  | cons c s => exact SkipSpace_nonspace c _ (h2 c (by simp))

theorem convertString_eq (s s1 s2 : Bytes) (h1 : SkipSpace s = .ok s1) (h2 : s1 ≠ [])
    (h3 : SkipSpace s1 = .ok s2) :
    convertString s = .ok (s2.span fun c => !isSpace c) := by
  unfold convertString
  rw [h1]
  simp only [bind_ok_eq, notEOF, h2, if_false]
  rw [h3]
  rfl

theorem convertString_word (t rest : Bytes) (ht : isWord t = true) (hr : spaceNext rest = true) :
    convertString (t ++ rest) = .ok (t, rest) := by
  obtain ⟨h1, h2⟩ := (isWord_iff t).mp ht
  have hne : t ++ rest ≠ [] := by simp [h1]
  have hs := span_append_stop (fun c => !isSpace c) t rest (by simpa using h2)
    (by cases rest <;> simp_all [spaceNext])
  rw [convertString_eq _ _ _ (SkipSpace_word t rest ht) hne (SkipSpace_word t rest ht), hs]

theorem endLine_newline (s : Bytes) : endLine ('\n' :: s) = .ok s := by
  simp [endLine]

theorem scanNumber_digits (digits ds rest : Bytes) (hv : Bool)
    (hne : hv = false → ds ≠ [])
    (hd : ∀ c ∈ ds, digits.contains c = true)
    (hr : rest.head?.all (fun c => !digits.contains c) = true) :
    scanNumber digits hv (ds ++ rest) = .ok (ds, rest) := by
  have hs := span_append_stop (fun c => digits.contains c) ds rest hd hr
  unfold scanNumber
  rw [hs]
  cases hv with
  | true => rfl
  | false =>
    have h1 := hne rfl
    have : ds ++ rest ≠ [] := by simp [h1]
    simp only [Bool.false_eq_true, if_false, this, h1]

theorem ParseInt_inRange (neg : Bool) (base : Nat) (tok : Bytes) (i : Int)
    (h : ParseInt neg base tok = .ok i) : -2 ^ 63 ≤ i ∧ i < 2 ^ 63 := by
  unfold ParseInt at h
  cases neg with
  | true =>
    simp only [if_true] at h
    split at h
    · cases h
    · injection h with h
      subst h
      constructor <;> omega
  | false =>
    simp only [Bool.false_eq_true, if_false] at h
    split at h
    · cases h
    · injection h with h
      subst h
      constructor <;> omega

theorem scanInt_eq (verb : Char) (s s1 : Bytes) (num : Bytes × Bytes) (i : Int)
    (pre : (Nat × Bytes × Bool) × Bytes)
    (h1 : SkipSpace s = .ok s1) (h2 : s1 ≠ [])
    (hp : pre = if verb = 'v' then scanBasePrefix (accept "+-".toList s1).2
      else ((10, decimalDigits, false), (accept "+-".toList s1).2))
    (h3 : scanNumber pre.1.2.1 pre.1.2.2 pre.2 = .ok num)
    (h4 : ParseInt ((accept "+-".toList s1).1 == some '-') pre.1.1 num.1 = .ok i) :
    scanInt verb s = .ok (i, num.2) := by
  unfold scanInt
  rw [h1]
  simp only [bind_ok_eq, notEOF, h2, if_false]
  rw [← hp, h3]
  simp only [bind_ok_eq]
  rw [h4]
  rfl

theorem rest_not_digit (digits rest : Bytes) (hr : spaceNext rest = true)
    (hd : ∀ c, isSpace c = true → digits.contains c = false) :
    rest.head?.all (fun c => !digits.contains c) = true := by
  cases rest with
  | nil => rfl
  | cons c s =>
    have : isSpace c = true := by simpa [spaceNext] using hr
    simp only [List.head?_cons, Option.all_some, hd c this, Bool.not_false]

theorem scanBasePrefix_nonzero (c : Char) (s : Bytes) (h : c ≠ '0') :
    scanBasePrefix (c :: s) = ((10, decimalDigits, false), c :: s) := by
  simp only [scanBasePrefix, h, if_false]

theorem scanBasePrefix_zero (rest : Bytes) (hr : spaceNext rest = true) :
    scanBasePrefix ('0' :: rest) = ((8, octalDigits, true), rest) := by
  cases rest with
  | nil => rfl
  | cons c s =>
    have : isSpace c = true := by simpa [spaceNext] using hr
    obtain ⟨_, _, _, q1, q2, _, _⟩ := space_not_digit c this
    simp [scanBasePrefix, q1, q2]

theorem accept_sign_minus (s : Bytes) : accept "+-".toList ('-' :: s) = (some '-', s) := by
  simp [accept]

theorem accept_sign_digit (c : Char) (s : Bytes) (h : decimalDigits.contains c = true) :
    accept "+-".toList (c :: s) = (none, c :: s) := by
  obtain ⟨_, h1, h2, _⟩ := digit_cases c h
  simp [accept, h1, h2]

/-- The scanner reads back the decimal numeral of every 64-bit integer, for
both verbs, when a space or the end of the input follows. -/
theorem scanInt_decimal (verb : Char) (i : Int) (rest : Bytes)
    (hlo : -2 ^ 63 ≤ i) (hhi : i < 2 ^ 63) (hr : spaceNext rest = true) :
    scanInt verb (decimalInt i ++ rest) = .ok (i, rest) := by
  obtain ⟨d1, d2, d3, d4⟩ := decimal_spec i.natAbs
  have hrd := rest_not_digit decimalDigits rest hr fun c hc => (space_not_digit c hc).1
  have hro := rest_not_digit octalDigits rest hr fun c hc => (space_not_digit c hc).2.1
  obtain ⟨c0, t0, hct⟩ : ∃ c0 t0, decimal i.natAbs = c0 :: t0 := by
    cases hd : decimal i.natAbs with
    | nil => exact absurd hd d1
    | cons a b => exact ⟨a, b, rfl⟩
  have hc0 : decimalDigits.contains c0 = true := d2 c0 (by simp [hct])
  obtain ⟨hc0s, hc0m, hc0p, _⟩ := digit_cases c0 hc0
  have hnum := scanNumber_digits decimalDigits (decimal i.natAbs) rest false (fun _ => d1) d2 hrd
  by_cases hneg : i < 0
  · have hz : c0 ≠ '0' := by
      intro e
      have := d4 (by simp [hct, e])
      have hv : parseUint 10 (decimal i.natAbs) = 0 := by rw [this]; decide
      omega
    have hdi : decimalInt i = '-' :: decimal i.natAbs := by simp [decimalInt, hneg]
    have hval : ParseInt true 10 (decimal i.natAbs) = .ok i := by
      simp only [ParseInt, d3, if_true]
      rw [if_neg (by omega)]
      congr 1
      omega
    rw [hdi, List.cons_append]
    refine scanInt_eq verb _ _ (decimal i.natAbs, rest) i
      ((10, decimalDigits, false), decimal i.natAbs ++ rest)
      (SkipSpace_nonspace _ _ (by decide)) (by simp) ?_ hnum ?_
    · rw [accept_sign_minus]
      by_cases hv : verb = 'v'
      · rw [if_pos hv, hct, List.cons_append, scanBasePrefix_nonzero _ _ hz]
      · rw [if_neg hv]
    · rw [accept_sign_minus]
      exact hval
  · have hdi : decimalInt i = decimal i.natAbs := by simp [decimalInt, hneg]
    have hval : ParseInt false 10 (decimal i.natAbs) = .ok i := by
      simp only [ParseInt, d3, Bool.false_eq_true, if_false]
      rw [if_neg (by omega)]
      congr 1
      omega
    have hsk : SkipSpace (decimal i.natAbs ++ rest) = .ok (decimal i.natAbs ++ rest) := by
      rw [hct]; exact SkipSpace_nonspace _ _ hc0s
    have hacc : accept "+-".toList (decimal i.natAbs ++ rest) = (none, decimal i.natAbs ++ rest) := by
      rw [hct]; exact accept_sign_digit _ _ hc0
    rw [hdi]
    by_cases hv : verb = 'v'
    · by_cases hz : c0 = '0'
      · have h0 : decimal i.natAbs = ['0'] := d4 (by simp [hct, hz])
        have hi : i = 0 := by
          have hv0 : parseUint 10 (decimal i.natAbs) = 0 := by rw [h0]; decide
          omega
        have hn0 := scanNumber_digits octalDigits [] rest true (by simp) (by simp) hro
        refine scanInt_eq verb _ _ ([], rest) i ((8, octalDigits, true), rest) hsk (by simp [d1])
          ?_ hn0 ?_
        · rw [hacc, if_pos hv, h0]
          exact (scanBasePrefix_zero rest hr).symm
        · rw [hacc, hi]
          rfl
      · refine scanInt_eq verb _ _ (decimal i.natAbs, rest) i
          ((10, decimalDigits, false), decimal i.natAbs ++ rest) hsk (by simp [d1]) ?_ hnum ?_
        · rw [hacc, if_pos hv, hct, List.cons_append, scanBasePrefix_nonzero _ _ hz]
        · rw [hacc]
          exact hval
    · refine scanInt_eq verb _ _ (decimal i.natAbs, rest) i
        ((10, decimalDigits, false), decimal i.natAbs ++ rest) hsk (by simp [d1]) ?_ hnum ?_
      · rw [hacc, if_neg hv]
      · rw [hacc]
        exact hval

/-! ## Inversion of `parseHeader` and `NewMsg` -/

theorem bind_eq_ok {α β : Type} (x : Except Fault α) (f : α → Except Fault β) (b : β)
    (h : (x >>= f) = .ok b) : ∃ a, x = .ok a ∧ f a = .ok b := by
  cases x with
  | error e => cases h
  | ok a => exact ⟨a, rfl, h⟩

theorem failIf_eq_ok (cond : Prop) [Decidable cond] (e : Error) (u : Unit)
    (h : failIf cond e = .ok u) : ¬cond := by
  unfold failIf at h
  by_cases hc : cond
  · rw [if_pos hc] at h; cases h
  · exact hc

/-- A successful `parseHeader` went through every section; the values each
section produced are the fields of the `Msg`. -/
theorem parseHeader_ok (id hp dp r : Bytes) (m : Msg) (h : parseHeader id hp dp r = .ok m) :
    ∃ first own snd tim dash non num rc sep hdrs,
      Fscanln_bytes r = .ok first ∧ first.1 = pathBase hp ∧
      Fscanln_bytes_int_int first.2 = .ok own ∧
      Fscanln_bytes own.2.2.2 = .ok snd ∧
      Fscanln_int_int snd.2 = .ok tim ∧
      dashLoop hp (tim.2.2.length + 1) ⟨[], [], [], []⟩ tim.2.2 = .ok dash ∧
      nonRcpts dash.2.1 dash.2.2 = .ok non ∧
      Sscanf_int non.2.1 = .ok num ∧
      rcpts hp num non.2.2 = .ok rc ∧
      separator hp rc.2 = .ok sep ∧
      hdrLoop hp (sep.length + 1) ⟨false, [], []⟩ sep = .ok hdrs ∧
      m = {
        ID := id, User := own.1, UID := own.2.1, GID := own.2.2.1,
        Sender := bytesTrim "\n><".toList snd.1,
        Received := tim.1, WarnCount := tim.2.1,
        ACL := dash.1.ACL, Aclc := dash.1.Aclc, Aclm := dash.1.Aclm,
        DashVars := dash.1.DashVars,
        NonRcpts := non.1, NumRcpts := num, Rcpts := rc.1,
        Hdrs := hdrs.Hdrs, RawHdrs := hdrs.RawHdrs,
        HdrFile := hp, DtaFile := dp, hf := hp, df := dp } := by
  unfold parseHeader at h
  obtain ⟨first, h1, h⟩ := bind_eq_ok _ _ _ h
  obtain ⟨u1, g1, h⟩ := bind_eq_ok _ _ _ h
  have g1 := failIf_eq_ok _ _ _ g1
  obtain ⟨own, h2, h⟩ := bind_eq_ok _ _ _ h
  obtain ⟨snd, h3, h⟩ := bind_eq_ok _ _ _ h
  obtain ⟨tim, h4, h⟩ := bind_eq_ok _ _ _ h
  obtain ⟨dash, h5, h⟩ := bind_eq_ok _ _ _ h
  obtain ⟨u2, _, h⟩ := bind_eq_ok _ _ _ h
  obtain ⟨non, h6, h⟩ := bind_eq_ok _ _ _ h
  obtain ⟨num, h7, h⟩ := bind_eq_ok _ _ _ h
  obtain ⟨rc, h8, h⟩ := bind_eq_ok _ _ _ h
  obtain ⟨sep, h9, h⟩ := bind_eq_ok _ _ _ h
  obtain ⟨hdrs, h10, h⟩ := bind_eq_ok _ _ _ h
  refine ⟨first, own, snd, tim, dash, non, num, rc, sep, hdrs, h1, not_not.mp g1, h2, h3, h4, h5,
    h6, h7, h8, h9, h10, ?_⟩
  injection h with h
  exact h.symm

/-- A successful `NewMsg` passed the identifier check, found the directory and
the header file, opened and locked both files, accepted the data file and
parsed the header file at `path.Join(p, id + "-H")`. -/
theorem NewMsg_ok (w : World) (p id : Bytes) (m : Msg) (h : (NewMsg w p id).out = .ok m) :
    MidRe.MatchString id = true ∧ w.stat p = .dir ∧
      w.stat (pathJoin p (hdrName id)) = .regular ∧
      checkData (pathJoin p (dtaName id)) (w.content (pathJoin p (dtaName id))) = .ok () ∧
      parseHeader id (pathJoin p (hdrName id)) (pathJoin p (dtaName id))
        (w.content (pathJoin p (hdrName id))) = .ok m := by
  unfold NewMsg at h
  cases hid : MidRe.MatchString id
  · rw [hid] at h; cases h
  rw [hid] at h
  simp only [Bool.not_true, Bool.false_eq_true, if_false] at h
  unfold checkPaths checkFile at h
  cases hs : w.stat p <;> rw [hs] at h <;> simp only at h <;> try (cases h)
  cases hf : w.stat (pathJoin p (hdrName id)) <;> rw [hf] at h <;> simp only at h <;>
    try (cases h)
  cases ho : w.canOpen (pathJoin p (dtaName id))
  · rw [ho] at h; cases h
  rw [ho] at h
  cases hl : w.canLock (pathJoin p (dtaName id))
  · rw [hl] at h; cases h
  rw [hl] at h
  simp only [Bool.not_true, Bool.false_eq_true, if_false] at h
  cases hd : checkData (pathJoin p (dtaName id)) (w.content (pathJoin p (dtaName id))) with
  | error f => rw [hd] at h; cases h
  | ok u =>
    rw [hd] at h
    simp only at h
    cases ho2 : w.canOpen (pathJoin p (hdrName id))
    · rw [ho2] at h; cases h
    rw [ho2] at h
    cases hl2 : w.canLock (pathJoin p (hdrName id))
    · rw [hl2] at h; cases h
    rw [hl2] at h
    simp only [Bool.not_true, Bool.false_eq_true, if_false] at h
    exact ⟨rfl, rfl, rfl, rfl, h⟩

/-! ## C2: the envelope fields -/

theorem spaceNext_space (s : Bytes) : spaceNext (' ' :: s) = true := rfl

theorem spaceNext_newline (s : Bytes) : spaceNext ('\n' :: s) = true := rfl

theorem scanInt_space (verb : Char) (s : Bytes) : scanInt verb (' ' :: s) = scanInt verb s := by
  unfold scanInt
  have e1 : (' ' : Char) ≠ '\r' := by decide
  have e2 : (' ' : Char) ≠ '\n' := by decide
  have e3 : isSpace ' ' = true := by decide
  have : SkipSpace (' ' :: s) = SkipSpace s := by
    rw [SkipSpace]
    simp only [e1, e2, e3, false_and, if_false, if_true]
  rw [this]

theorem isWord_hdrName (id : Bytes) (h : isWord id = true) : isWord (hdrName id) = true := by
  obtain ⟨h1, h2⟩ := (isWord_iff id).mp h
  refine (isWord_iff _).mpr ⟨by simp [hdrName, h1], ?_⟩
  intro c hc
  rcases List.mem_append.mp hc with hc | hc
  · exact h2 c hc
  · have : c = '-' ∨ c = 'H' := by simpa using hc
    rcases this with e | e <;> subst e <;> decide

theorem Fscanln_bytes_line (t r : Bytes) (ht : isWord t = true) :
    Fscanln_bytes (t ++ '\n' :: r) = .ok (t, r) := by
  unfold Fscanln_bytes
  rw [convertString_word t _ ht (spaceNext_newline _)]
  simp only [bind_ok_eq, endLine_newline]
  rfl

theorem Fscanln_bytes_int_int_line (t r : Bytes) (a b : Int) (ht : isWord t = true)
    (ha : inInt64 a) (hb : inInt64 b) :
    Fscanln_bytes_int_int (t ++ ' ' :: (decimalInt a ++ ' ' :: (decimalInt b ++ '\n' :: r))) =
      .ok (t, a, b, r) := by
  unfold Fscanln_bytes_int_int
  rw [convertString_word t _ ht (spaceNext_space _)]
  simp only [bind_ok_eq, scanInt_space]
  rw [scanInt_decimal 'v' a _ ha.1 ha.2 (spaceNext_space _)]
  simp only [bind_ok_eq, scanInt_space]
  rw [scanInt_decimal 'v' b _ hb.1 hb.2 (spaceNext_newline _)]
  simp only [bind_ok_eq, endLine_newline]
  rfl

theorem Fscanln_int_int_line (r : Bytes) (a b : Int) (ha : inInt64 a) (hb : inInt64 b) :
    Fscanln_int_int (decimalInt a ++ ' ' :: (decimalInt b ++ '\n' :: r)) = .ok (a, b, r) := by
  unfold Fscanln_int_int
  rw [scanInt_decimal 'v' a _ ha.1 ha.2 (spaceNext_space _)]
  simp only [bind_ok_eq, scanInt_space]
  rw [scanInt_decimal 'v' b _ hb.1 hb.2 (spaceNext_newline _)]
  simp only [bind_ok_eq, endLine_newline]
  rfl

/-- C2: when the header file of the pair starts with the lines `<id>-H`,
`<user> <uid> <gid>`, `<sender>` and `<received> <warncount>` (words and decimal
numerals of 64-bit integers), every `Msg` that `NewMsg(p, id)` returns has
`ID = id`, `User = user`, `UID = uid`, `GID = gid`, `Received = received`,
`WarnCount = warncount`, `HdrFile = path.Join(p, id-H)` and
`DtaFile = path.Join(p, id-D)`. -/
theorem C2_envelope_fields (w : World) (p id user sender rest : Bytes)
    (uid gid received warn : Int) (m : Msg)
    (hid : isWord id = true) (huser : isWord user = true) (hsender : isWord sender = true)
    (huid : inInt64 uid) (hgid : inInt64 gid) (hrcv : inInt64 received) (hwarn : inInt64 warn)
    (hfile : w.content (pathJoin p (hdrName id)) =
      envelopeLines id user uid gid sender received warn ++ rest)
    (hok : (NewMsg w p id).out = .ok m) :
    m.ID = id ∧ m.User = user ∧ m.UID = uid ∧ m.GID = gid ∧ m.Received = received ∧
      m.WarnCount = warn ∧ m.HdrFile = pathJoin p (hdrName id) ∧
      m.DtaFile = pathJoin p (dtaName id) := by
  obtain ⟨_, _, _, _, hp⟩ := NewMsg_ok w p id m hok
  obtain ⟨first, own, snd, tim, dash, non, num, rc, sep, hdrs, h1, _, h2, h3, h4, _, _, _, _, _,
    _, hm⟩ := parseHeader_ok _ _ _ _ _ hp
  have hc : w.content (pathJoin p (hdrName id)) =
      hdrName id ++ '\n' :: (user ++ ' ' :: (decimalInt uid ++ ' ' :: (decimalInt gid ++ '\n' ::
        (sender ++ '\n' :: (decimalInt received ++ ' ' :: (decimalInt warn ++ '\n' :: rest)))))) := by
    rw [hfile]
    simp [envelopeLines]
  rw [hc, Fscanln_bytes_line _ _ (isWord_hdrName id hid)] at h1
  injection h1 with h1
  subst h1
  rw [Fscanln_bytes_int_int_line _ _ _ _ huser huid hgid] at h2
  injection h2 with h2
  subst h2
  rw [Fscanln_bytes_line _ _ hsender] at h3
  injection h3 with h3
  subst h3
  rw [Fscanln_int_int_line _ _ _ hrcv hwarn] at h4
  injection h4 with h4
  subst h4
  subst hm
  exact ⟨rfl, rfl, rfl, rfl, rfl, rfl, rfl, rfl⟩

theorem C2_envelope_fields_witness :
    (NewMsg sampleWorld "/spool".toList "1eXn2s-0008DG-EX".toList).out = .ok sampleMsg ∧
      sampleMsg.ID = "1eXn2s-0008DG-EX".toList ∧ sampleMsg.User = "exim".toList ∧
      sampleMsg.UID = 93 ∧ sampleMsg.GID = 93 ∧ sampleMsg.Received = 1515239630 ∧
      sampleMsg.WarnCount = 0 ∧
      sampleMsg.HdrFile = pathJoin "/spool".toList (hdrName "1eXn2s-0008DG-EX".toList) ∧
      sampleMsg.DtaFile = pathJoin "/spool".toList (dtaName "1eXn2s-0008DG-EX".toList) :=
  ⟨by decide!,
   C2_envelope_fields sampleWorld "/spool".toList "1eXn2s-0008DG-EX".toList "exim".toList
     "<andrew@kudusoft.home>".toList
     "-helo_name alcazar.home\nNN\n1\nr@x\n\n008T To: a@b\n014  Subject:\n x y\n".toList
     93 93 1515239630 0 sampleMsg (by decide!) (by decide!) (by decide!) (by decide!) (by decide!)
     (by decide!) (by decide!) (by decide!) (by decide!)⟩

/-! ## C3: the sentinel line `XX` -/

/-- After the sentinel line `XX` no further line is read: `line` is still
`XX\n` when the recipient count is scanned from it, and the scan fails. -/
theorem XX_count_fails (r : Bytes) :
    (nonRcpts "XX\n".toList r >>= fun non => Sscanf_int non.2.1) =
      scanError "expected integer" := by
  rfl

/-- C3 (fails on the code): the header file has no control variable, then the
line `XX`, the count `1`, one recipient, the empty line and one header record.
`NewMsg` does not succeed with `NumRcpts = 1`: it scans the count from the line
`XX` itself and returns the scanner's error `expected integer`. -/
theorem C3_XX_then_count_fails :
    newMsgWithHdr "XX\n1\nr@x\n\n008T To: a@b\n".toList =
      .error (.err (.scan "expected integer")) := by
  decide!

/-! ## C5: suppressed header records -/

/-- C5 (fails on the code): the header section holds one well-formed record,
flagged `*`, whose eleven bytes of text `A\n004Q xyz\n` span two lines.  The
loop leaves the record after its first line, takes the second line for a record
of its own and returns `Hdrs = ["xyz"]`, `RawHdrs = ["004Q xyz"]`, a fragment of
the suppressed text, where both sequences should be empty.  With an
ordinary folded `Received:` header the second line fails to scan and `NewMsg`
returns an error instead of resuming at the next record. -/
theorem C5_suppressed_record_not_consumed :
    ((newMsgWithHdr "NN\n1\nr@x\n\n011* A\n004Q xyz\n".toList).map
        fun m => (m.Hdrs, m.RawHdrs)) = .ok (["xyz".toList], ["004Q xyz".toList]) ∧
    newMsgWithHdr "NN\n1\nr@x\n\n024* Received: from a\n\tby b;\n008T To: a@b\n".toList =
      .error (.err (.scan "expected integer")) := by
  decide!

/-! ## C6: `String` -/

/-- C6 (fails on the code): the body `one\nlast` ends in a line without
terminator.  `String` returns the headers, the empty line and `one\n` only: the
bytes `last`, which `ReadBytes` hands over together with `io.EOF`, are dropped,
so the result does not end with the body. -/
theorem C6_String_drops_unterminated_line :
    (NewMsg (worldWithDta "1eXn2s-0008DG-EX-D\none\nlast".toList) "/spool".toList
        "1eXn2s-0008DG-EX".toList).out = .ok sampleMsg ∧
    Msg.String (worldWithDta "1eXn2s-0008DG-EX-D\none\nlast".toList) sampleMsg =
      .ok "To: a@b\nSubject:\n x y\n\none\n".toList ∧
    Msg.String (worldWithDta "1eXn2s-0008DG-EX-D\none\nlast".toList) sampleMsg ≠
      .ok (headerText sampleMsg.Hdrs ++ "one\nlast".toList) := by
  decide!

/-! ## C7: control variables without a value -/

/-- A control-variable line made of one word and its terminator does not match
the format `"%s "`: the space of the format meets the newline. -/
theorem Sscanf_key_single_word (t : Bytes) (ht : isWord t = true) :
    Sscanf_key (t ++ ['\n']) = scanError "newline in input does not match format" := by
  unfold Sscanf_key
  rw [SkipSpace_word t _ ht]
  simp only [bind_ok_eq]
  rw [convertString_word t _ ht (spaceNext_newline _)]
  rfl

/-- C7 (fails on the code): with the single-word line `-local` in the
control-variable section `NewMsg` does not go on: it returns the scanner's
error.  The same file without that line is parsed, and `DashVars` maps
`-helo_name` to the whole line `-helo_name alcazar.home`. -/
theorem C7_single_word_line_fails :
    newMsgWithHdr "-helo_name alcazar.home\n-local\nNN\n1\nr@x\n\n008T To: a@b\n".toList =
      .error (.err (.scan "newline in input does not match format")) ∧
    ((newMsgWithHdr "-helo_name alcazar.home\nNN\n1\nr@x\n\n008T To: a@b\n".toList).map
        fun m => m.DashVars.get "-helo_name".toList) =
      .ok (some "-helo_name alcazar.home".toList) := by
  decide!

/-! ## C9: the declared length of an ACL value -/

/-- C9 (fails on the code): the ACL line `-acl x -2` declares a negative
count, so no count of further bytes ends at a line terminator.  `NewMsg` does
not return an error: `make([]byte, chars)` panics. -/
theorem C9_negative_count_panics :
    newMsgWithHdr "-acl x -2\n\nNN\n1\nr@x\n\n008T To: a@b\n".toList =
      .error (.panic "makeslice: len out of range") := by
  decide!

/-! ## C8: ACL values -/

theorem skipBlanks_nonspace (c : Char) (s : Bytes) (h : isSpace c = false) :
    skipBlanks (c :: s) = c :: s := by
  simp [skipBlanks, List.dropWhile, h]

theorem word_no_newline (t : Bytes) (ht : isWord t = true) : '\n' ∉ t := by
  intro hm
  have := ((isWord_iff t).mp ht).2 _ hm
  exact absurd this (by decide)

theorem SkipSpace_suffix (s s2 : Bytes) (h : SkipSpace s = .ok s2) : s2 <:+ s := by
  induction s with
  | nil =>
    simp only [SkipSpace] at h
    injection h with h
    subst h
    exact List.suffix_refl _
  | cons c t ih =>
    rw [SkipSpace] at h
    split at h
    · exact (ih h).trans (List.suffix_cons c t)
    · split at h
      · cases h
      · split at h
        · exact (ih h).trans (List.suffix_cons c t)
        · injection h with h
          subst h
          exact List.suffix_refl _

theorem span_suffix (p : Char → Bool) (s : Bytes) : (s.span p).2 <:+ s := by
  rw [List.span_eq_take_drop]
  exact List.dropWhile_suffix p

theorem convertString_suffix (s t s2 : Bytes) (h : convertString s = .ok (t, s2)) :
    s2 <:+ s := by
  unfold convertString at h
  obtain ⟨a, h1, h⟩ := bind_eq_ok _ _ _ h
  obtain ⟨_, _, h⟩ := bind_eq_ok _ _ _ h
  obtain ⟨b, h2, h⟩ := bind_eq_ok _ _ _ h
  injection h with h
  have : s2 = (b.span fun c => !isSpace c).2 := by rw [h]
  rw [this]
  exact ((span_suffix _ b).trans (SkipSpace_suffix _ _ h2)).trans (SkipSpace_suffix _ _ h1)

theorem accept_suffix (ok s : Bytes) : (accept ok s).2 <:+ s := by
  cases s with
  | nil => exact List.suffix_refl _
  | cons c t =>
    rw [accept]
    split
    · exact List.suffix_cons c t
    · exact List.suffix_refl _

theorem scanBasePrefix_suffix (s : Bytes) : (scanBasePrefix s).2 <:+ s := by
  cases s with
  | nil => exact List.suffix_refl _
  | cons c t =>
    by_cases hc : c = '0'
    · cases t with
      | nil =>
        simp only [scanBasePrefix, hc, if_true]
        exact List.suffix_cons _ []
      | cons d u =>
        by_cases hd : d = 'x' ∨ d = 'X'
        · simp only [scanBasePrefix, hc, hd, if_true]
          exact (List.suffix_cons d u).trans (List.suffix_cons _ _)
        · simp only [scanBasePrefix, hc, hd, if_true, if_false]
          exact List.suffix_cons _ _
    · simp only [scanBasePrefix, hc, if_false]
      exact List.suffix_refl _

theorem scanNumber_suffix (digits : Bytes) (hv : Bool) (s : Bytes) (num : Bytes × Bytes)
    (h : scanNumber digits hv s = .ok num) : num.2 <:+ s := by
  unfold scanNumber at h
  split at h
  · injection h with h
    rw [← h]
    exact span_suffix _ s
  · split at h
    · cases h
    · split at h
      · cases h
      · injection h with h
        rw [← h]
        exact span_suffix _ s

/-- A scanned integer fits Go `int`, and the scan consumed a prefix. -/
theorem scanInt_ok (verb : Char) (s s2 : Bytes) (i : Int) (h : scanInt verb s = .ok (i, s2)) :
    inInt64 i ∧ s2 <:+ s := by
  unfold scanInt at h
  obtain ⟨a, h1, h⟩ := bind_eq_ok _ _ _ h
  obtain ⟨_, _, h⟩ := bind_eq_ok _ _ _ h
  obtain ⟨num, h2, h⟩ := bind_eq_ok _ _ _ h
  obtain ⟨j, h3, h⟩ := bind_eq_ok _ _ _ h
  injection h with h
  injection h with e1 e2
  subst e1
  refine ⟨ParseInt_inRange _ _ _ _ h3, ?_⟩
  rw [← e2]
  refine ((scanNumber_suffix _ _ _ _ h2).trans ?_).trans (SkipSpace_suffix _ _ h1)
  split
  · exact (scanBasePrefix_suffix _).trans (accept_suffix _ _)
  · exact accept_suffix _ _

theorem endLine_suffix (s s2 : Bytes) (h : endLine s = .ok s2) : s2 <:+ s := by
  induction s with
  | nil =>
    simp only [endLine] at h
    injection h with h
    subst h
    exact List.suffix_refl _
  | cons c t ih =>
    rw [endLine] at h
    split at h
    · injection h with h
      subst h
      exact List.suffix_cons c _
    · split at h
      · exact (ih h).trans (List.suffix_cons c t)
      · cases h

theorem Fscanln_bytes_suffix (r : Bytes) (x : Bytes × Bytes) (h : Fscanln_bytes r = .ok x) :
    x.2 <:+ r := by
  unfold Fscanln_bytes at h
  obtain ⟨a, h1, h⟩ := bind_eq_ok _ _ _ h
  obtain ⟨b, h2, h⟩ := bind_eq_ok _ _ _ h
  injection h with h
  rw [← h]
  exact (endLine_suffix _ _ h2).trans (convertString_suffix _ _ _ h1)

theorem Fscanln_bytes_int_int_suffix (r : Bytes) (x : Bytes × Int × Int × Bytes)
    (h : Fscanln_bytes_int_int r = .ok x) : x.2.2.2 <:+ r := by
  unfold Fscanln_bytes_int_int at h
  obtain ⟨a, h1, h⟩ := bind_eq_ok _ _ _ h
  obtain ⟨b, h2, h⟩ := bind_eq_ok _ _ _ h
  obtain ⟨c, h3, h⟩ := bind_eq_ok _ _ _ h
  obtain ⟨d, h4, h⟩ := bind_eq_ok _ _ _ h
  injection h with h
  rw [← h]
  exact (((endLine_suffix _ _ h4).trans (scanInt_ok _ _ _ _ h3).2).trans
    (scanInt_ok _ _ _ _ h2).2).trans (convertString_suffix _ _ _ h1)

theorem Fscanln_int_int_suffix (r : Bytes) (x : Int × Int × Bytes)
    (h : Fscanln_int_int r = .ok x) : x.2.2 <:+ r := by
  unfold Fscanln_int_int at h
  obtain ⟨b, h2, h⟩ := bind_eq_ok _ _ _ h
  obtain ⟨c, h3, h⟩ := bind_eq_ok _ _ _ h
  obtain ⟨d, h4, h⟩ := bind_eq_ok _ _ _ h
  injection h with h
  rw [← h]
  exact ((endLine_suffix _ _ h4).trans (scanInt_ok _ _ _ _ h3).2).trans
    (scanInt_ok _ _ _ _ h2).2

theorem Sscanf_int_inRange (line : Bytes) (n : Int) (h : Sscanf_int line = .ok n) :
    inInt64 n := by
  unfold Sscanf_int at h
  obtain ⟨a, h1, h⟩ := bind_eq_ok _ _ _ h
  obtain ⟨b, h2, h⟩ := bind_eq_ok _ _ _ h
  injection h with h
  rw [← h]
  exact (scanInt_ok _ _ _ _ h2).1

theorem Read_ok (n : Nat) (r val r2 : Bytes) (h : Read n r = (val, none, r2)) :
    val = r.take n ∧ r2 = r.drop n := by
  unfold Read at h
  split at h
  · rename_i h0
    injection h with a b
    injection b with _ c
    subst h0
    exact ⟨by rw [← a]; rfl, by rw [← c]; rfl⟩
  · split at h
    · injection h with _ b
      injection b with b _
      cases b
    · injection h with a b
      injection b with _ c
      exact ⟨a.symm, c.symm⟩

/-- What an accepted ACL variable looks like (the part of C9 that holds): the
declared count is not negative, the reader held that many bytes `v` followed by
a line terminator, and the stored value is `v` without its trailing newlines. -/
theorem aclStep_ok (hp line r name val r2 : Bytes)
    (h : aclStep hp line r = .ok (name, val, r2)) :
    ∃ (chars : Int) (v : Bytes), Sscanf_acl (aclKind line).marker line = .ok (name, chars) ∧
      0 ≤ chars ∧ (v.length : Int) = chars ∧ r = v ++ '\n' :: r2 ∧ val = trim v := by
  unfold aclStep at h
  split at h
  · cases h
  · rename_i nm chars hs
    split at h
    · cases h
    · rename_i size hm
      have hsz : 0 ≤ chars ∧ (size : Int) = chars := by
        unfold makeBytes at hm
        split at hm
        · cases hm
        · rename_i hc
          injection hm with hm
          subst hm
          have : 0 ≤ chars := by omega
          exact ⟨this, Int.toNat_of_nonneg this⟩
      split at h
      · cases h
      · rename_i v r1 hr
        obtain ⟨hv, hr1⟩ := Read_ok _ _ _ _ hr
        split at h
        · cases h
        · rename_i hlen
          split at h
          · cases h
          · rename_i rem r3 hrb
            split at h
            · cases h
            · rename_i hrem
              injection h with h
              injection h with e1 e2
              injection e2 with e2 e3
              obtain ⟨body, hb1, _, hb3⟩ := ReadBytes_ok _ _ _ _ hrb
              have hbody : body = [] := by
                have : rem.length = 1 := by simpa using hrem
                rw [hb1] at this
                simp at this
                exact this
              subst hbody
              have hlen2 : v.length = size := by simpa using hlen
              refine ⟨chars, v, ?_, hsz.1, ?_, ?_, e2.symm⟩
              · rw [hs, e1]
              · rw [hlen2]; exact hsz.2
              · have : r = r.take size ++ r.drop size := (List.take_append_drop size r).symm
                rw [← hv, ← hr1, hb3, hb1] at this
                rw [← e3]
                simpa using this

theorem dashLoop_ok (hp : Bytes) (fuel : Nat) (v : Vars) (r : Bytes) (v2 : Vars)
    (line r2 : Bytes) (h : dashLoop hp fuel v r = .ok (v2, line, r2)) :
    ∃ pre body, r = pre ++ line ++ r2 ∧ line = body ++ ['\n'] ∧ '\n' ∉ body := by
  induction fuel generalizing v r with
  | zero => cases h
  | succ f ih =>
    rw [dashLoop] at h
    split at h
    · cases h
    · rename_i ln r1 hrb
      obtain ⟨body, hb1, hb2, hb3⟩ := ReadBytes_ok _ _ _ _ hrb
      split at h
      · injection h with h
        injection h with e1 e2
        injection e2 with e2 e3
        subst e2 e3
        exact ⟨[], body, by simpa using hb3, hb1, hb2⟩
      · split at h
        · split at h
          · cases h
          · rename_i nm val r3 hs
            obtain ⟨_, vv, _, _, _, hr, _⟩ := aclStep_ok _ _ _ _ _ _ hs
            obtain ⟨pre, b2, hp1, hp2, hp3⟩ := ih _ _ h
            refine ⟨ln ++ vv ++ '\n' :: pre, b2, ?_, hp2, hp3⟩
            rw [hb3, hr, hp1]
            simp
        · split at h
          · cases h
          · obtain ⟨pre, b2, hp1, hp2, hp3⟩ := ih _ _ h
            refine ⟨ln ++ pre, b2, ?_, hp2, hp3⟩
            rw [hb3, hp1]
            simp

theorem nonRcpts_ok (line r : Bytes) (nr : List Bytes) (line2 r2 : Bytes)
    (h : nonRcpts line r = .ok (nr, line2, r2)) :
    (line = "XX\n".toList ∧ line2 = line) ∨
      (∃ body, line2 = body ++ ['\n'] ∧ '\n' ∉ body ∧ r = line2 ++ r2) := by
  unfold nonRcpts at h
  split at h
  · split at h
    · cases h
    · rename_i nx r1 hrb
      obtain ⟨body, hb1, hb2, hb3⟩ := ReadBytes_ok _ _ _ _ hrb
      right
      split at h <;>
      · injection h with h
        injection h with _ e2
        injection e2 with e2 e3
        subst e2 e3
        exact ⟨body, hb1, hb2, hb3⟩
  · rename_i hx
    left
    injection h with h
    injection h with _ e2
    injection e2 with e2 _
    exact ⟨not_not.mp hx, e2.symm⟩

theorem unlines_append (a b : List Bytes) : unlines (a ++ b) = unlines a ++ unlines b := by
  simp [unlines]

theorem rcptLoop_ok (n : Nat) (acc : List Bytes) (r : Bytes) (rs : List Bytes) (r2 : Bytes)
    (h : rcptLoop n acc r = .ok (rs, r2)) :
    ∃ more, rs = acc ++ more ∧ more.length = n ∧ r = unlines more ++ r2 ∧
      ∀ l ∈ more, '\n' ∉ l := by
  induction n generalizing acc r with
  | zero =>
    simp only [rcptLoop] at h
    injection h with h
    injection h with e1 e2
    exact ⟨[], by simp [e1], rfl, by simp [unlines, e2], by simp⟩
  | succ n ih =>
    rw [rcptLoop] at h
    split at h
    · cases h
    · rename_i ln r1 hrb
      obtain ⟨body, hb1, hb2, hb3⟩ := ReadBytes_ok _ _ _ _ hrb
      obtain ⟨more, hm1, hm2, hm3, hm4⟩ := ih _ _ h
      have ht : trim ln = body := by rw [hb1]; exact trim_line body hb2
      refine ⟨body :: more, by simp [hm1, ht], by simp [hm2], ?_, ?_⟩
      · rw [hb3, hm3, hb1]
        simp [unlines]
      · intro l hl
        rcases List.mem_cons.mp hl with e | e
        · rw [e]; exact hb2
        · exact hm4 l e

/-- The recipients read for a declared count: one line and then
`wrap64 (count - 1)` more, each without its terminator, in file order. -/
theorem rcpts_ok (hp : Bytes) (count : Int) (r : Bytes) (rs : List Bytes) (r2 : Bytes)
    (h : rcpts hp count r = .ok (rs, r2)) :
    rs.length = (wrap64 (count - 1)).toNat + 1 ∧ r = unlines rs ++ r2 ∧
      ∀ l ∈ rs, '\n' ∉ l := by
  unfold rcpts at h
  split at h
  · cases h
  · rename_i ln r1 hrb
    obtain ⟨body, hb1, hb2, hb3⟩ := ReadBytes_ok _ _ _ _ hrb
    split at h
    · cases h
    · obtain ⟨more, hm1, hm2, hm3, hm4⟩ := rcptLoop_ok _ _ _ _ _ h
      have ht : trim ln = body := by rw [hb1]; exact trim_line body hb2
      refine ⟨by simp [hm1, hm2], ?_, ?_⟩
      · rw [hb3, hm3, hm1, ht, hb1]
        simp [unlines]
      · intro l hl
        rw [hm1, ht] at hl
        rcases List.mem_append.mp hl with e | e
        · simp at e; rw [e]; exact hb2
        · exact hm4 l e

theorem wrap64_id (x : Int) (h1 : -2 ^ 63 ≤ x) (h2 : x < 2 ^ 63) : wrap64 x = x := by
  unfold wrap64
  rw [Int.emod_eq_of_lt (by omega) (by omega)]
  omega

/-! ## C4: the recipients -/

/-- C4 (amended): in every `Msg` that `NewMsg` returns, `Rcpts` has `NumRcpts`
entries when the declared count is at least 1, and exactly one entry when it is
0 or negative (above the least 64-bit integer, whose predecessor wraps); the
entries hold no line terminator, and the header file reads: some lines, the
count line from which `NumRcpts` is scanned, the entries of `Rcpts` in order,
each followed by its terminator, and the rest. -/
theorem C4_rcpts_after_count (w : World) (p id : Bytes) (m : Msg)
    (hok : (NewMsg w p id).out = .ok m) :
    (1 ≤ m.NumRcpts → (m.Rcpts.length : Int) = m.NumRcpts) ∧
      (-2 ^ 63 < m.NumRcpts → m.NumRcpts ≤ 0 → m.Rcpts.length = 1) ∧
      (∀ l ∈ m.Rcpts, '\n' ∉ l) ∧
      ∃ pre countLine post,
        w.content (pathJoin p (hdrName id)) =
          pre ++ '\n' :: (countLine ++ unlines m.Rcpts ++ post) ∧
        Sscanf_int countLine = .ok m.NumRcpts ∧
        ∃ body, countLine = body ++ ['\n'] ∧ '\n' ∉ body := by
  obtain ⟨_, _, _, _, hp⟩ := NewMsg_ok w p id m hok
  obtain ⟨first, own, snd, tim, dash, non, num, rc, sep, hdrs, h1, _, h2, h3, h4, h5, h6, h7, h8,
    _, _, hm⟩ := parseHeader_ok _ _ _ _ _ hp
  have hnum := Sscanf_int_inRange _ _ h7
  obtain ⟨hlen, hcat, hnl⟩ := rcpts_ok _ _ _ rc.1 rc.2 h8
  obtain ⟨p0, hp0⟩ : tim.2.2 <:+ w.content (pathJoin p (hdrName id)) :=
    (((Fscanln_int_int_suffix _ _ h4).trans (Fscanln_bytes_suffix _ _ h3)).trans
      (Fscanln_bytes_int_int_suffix _ _ h2)).trans (Fscanln_bytes_suffix _ _ h1)
  obtain ⟨pre, body0, hd1, hd2, _⟩ := dashLoop_ok _ _ _ _ dash.1 dash.2.1 dash.2.2 h5
  have hxx : Sscanf_int "XX\n".toList = scanError "expected integer" := rfl
  rcases nonRcpts_ok _ _ non.1 non.2.1 non.2.2 h6 with ⟨e1, e2⟩ | ⟨body, hb1, hb2, hb3⟩
  · rw [e2, e1, hxx] at h7
    cases h7
  · subst hm
    refine ⟨?_, ?_, hnl, p0 ++ pre ++ body0, non.2.1, rc.2, ?_, h7, body, hb1, hb2⟩
    · intro h
      have h : 1 ≤ num := h
      have hhi : num < 2 ^ 63 := hnum.2
      have : wrap64 (num - 1) = num - 1 := wrap64_id _ (by omega) (by omega)
      show (rc.1.length : Int) = num
      rw [hlen, this]
      omega
    · intro h1 h2
      have h1 : -2 ^ 63 < num := h1
      have h2 : num ≤ 0 := h2
      have : wrap64 (num - 1) = num - 1 := wrap64_id _ (by omega) (by omega)
      show rc.1.length = 1
      rw [hlen, this]
      omega
    · show w.content (pathJoin p (hdrName id)) = _
      rw [← hp0, hd1, hd2, hb3, hcat]
      simp

theorem C4_rcpts_after_count_witness :
    (NewMsg sampleWorld "/spool".toList "1eXn2s-0008DG-EX".toList).out = .ok sampleMsg ∧
      (1 ≤ sampleMsg.NumRcpts → (sampleMsg.Rcpts.length : Int) = sampleMsg.NumRcpts) :=
  ⟨by decide!,
   (C4_rcpts_after_count sampleWorld "/spool".toList "1eXn2s-0008DG-EX".toList sampleMsg
     (by decide!)).1⟩

/-- C4 (as stated, fails): with the declared count `0`, and with `-3`, the
line after the count line is still read as a recipient: `Rcpts` has one entry
while `NumRcpts` is `0`, or `-3`. -/
theorem C4_count_zero_or_negative :
    ((newMsgWithHdr "NN\n0\nr@x\n\n008T To: a@b\n".toList).map
        fun m => (m.NumRcpts, m.Rcpts)) = .ok (0, ["r@x".toList]) ∧
    ((newMsgWithHdr "NN\n-3\nr@x\n\n008T To: a@b\n".toList).map
        fun m => (m.NumRcpts, m.Rcpts)) = .ok (-3, ["r@x".toList]) := by
  decide!

/-! ## Fuel: the loops never use up `length + 1` rounds -/

theorem ReadBytes_shorter (d : Char) (r line r2 : Bytes)
    (h : ReadBytes d r = (line, none, r2)) : r2.length < r.length := by
  obtain ⟨body, hb1, _, hb3⟩ := ReadBytes_ok _ _ _ _ h
  rw [hb3, hb1]
  simp only [List.length_append, List.length_cons, List.length_nil]
  omega

theorem aclStep_shorter (hp line r name val r2 : Bytes)
    (h : aclStep hp line r = .ok (name, val, r2)) : r2.length ≤ r.length := by
  obtain ⟨_, v, _, _, _, hr, _⟩ := aclStep_ok _ _ _ _ _ _ h
  rw [hr]
  simp only [List.length_append, List.length_cons]
  omega

/-- The control-variable loop gives the same result for every amount of fuel
above the length of its input. -/
theorem dashLoop_fuel (hp : Bytes) (f1 f2 : Nat) (v : Vars) (r : Bytes)
    (h1 : r.length < f1) (h2 : r.length < f2) :
    dashLoop hp f1 v r = dashLoop hp f2 v r := by
  induction f1 generalizing f2 v r with
  | zero => omega
  | succ f1 ih =>
    cases f2 with
    | zero => omega
    | succ f2 =>
      rw [dashLoop, dashLoop]
      split
      · rfl
      · rename_i ln r1 hrb
        have hs := ReadBytes_shorter _ _ _ _ hrb
        split
        · rfl
        · split
          · split
            · rfl
            · rename_i nm val r3 hacl
              have := aclStep_shorter _ _ _ _ _ _ hacl
              exact ih _ _ _ (by omega) (by omega)
          · split
            · rfl
            · exact ih _ _ _ (by omega) (by omega)

theorem hdrRecord_shorter (hp : Bytes) (length : Int) (line r line2 r2 : Bytes)
    (h : hdrRecord hp length line r = .ok (line2, r2)) : r2.length ≤ r.length := by
  unfold hdrRecord at h
  simp only at h
  split at h
  · split at h
    · cases h
    · split at h
      · cases h
      · rename_i rem r1 hr
        obtain ⟨_, hr1⟩ := Read_ok _ _ _ _ hr
        split at h
        · cases h
        · injection h with h
          injection h with _ e
          rw [← e, hr1]
          simp
  · injection h with h
    injection h with _ e
    rw [e]

/-- The header-record loop gives the same result for every amount of fuel
above the length of its input. -/
theorem hdrLoop_fuel (hp : Bytes) (f1 f2 : Nat) (st : HdrState) (r : Bytes)
    (h1 : r.length < f1) (h2 : r.length < f2) :
    hdrLoop hp f1 st r = hdrLoop hp f2 st r := by
  induction f1 generalizing f2 st r with
  | zero => omega
  | succ f1 ih =>
    cases f2 with
    | zero => omega
    | succ f2 =>
      rw [hdrLoop, hdrLoop]
      split
      · rfl
      · rename_i ln r1 hrb
        have hs := ReadBytes_shorter _ _ _ _ hrb
        split
        · rfl
        · split
          · exact ih _ _ _ (by omega) (by omega)
          · split
            · rfl
            · rename_i ln2 r2 hrec
              have := hdrRecord_shorter _ _ _ _ _ _ hrec
              split
              · rfl
              · exact ih _ _ _ (by omega) (by omega)

/-- The body loop of `String` gives the same result for every amount of fuel
above the length of its input. -/
theorem bodyLoop_fuel (f1 f2 : Nat) (b dr : Bytes) (h1 : dr.length < f1) (h2 : dr.length < f2) :
    bodyLoop f1 b dr = bodyLoop f2 b dr := by
  induction f1 generalizing f2 b dr with
  | zero => omega
  | succ f1 ih =>
    cases f2 with
    | zero => omega
    | succ f2 =>
      rw [bodyLoop, bodyLoop]
      split
      · rfl
      · rename_i ln r1 hrb
        have hs := ReadBytes_shorter _ _ _ _ hrb
        exact ih _ _ _ (by omega) (by omega)

/-! ## C11: the directory and the header file -/

/-- C11: for an identifier that passes the check, `NewMsg(p, id)` fails with
`The path: <p> is not a directory` when `p` exists and is not a directory, and
with the not-found error naming `path.Join(p, id-H)` when `p` is a directory
without that entry. -/
theorem C11_directory_errors (w : World) (p id : Bytes) (hid : MidRe.MatchString id = true) :
    (w.stat p = .regular ∨ w.stat p = .other →
      (NewMsg w p id).out =
        .error (.err (.errorf ("The path: ".toList ++ p ++ " is not a directory".toList)))) ∧
    (w.stat p = .dir → w.stat (pathJoin p (hdrName id)) = .notExist →
      (NewMsg w p id).out = .error (.err (.notExist (pathJoin p (hdrName id))))) := by
  constructor
  · intro h
    unfold NewMsg checkPaths
    rcases h with h | h <;> simp only [hid, h, Bool.not_true, Bool.false_eq_true, if_false] <;> rfl
  · intro h1 h2
    unfold NewMsg checkPaths checkFile
    simp only [hid, h1, h2, Bool.not_true, Bool.false_eq_true, if_false]

theorem C11_directory_errors_witness :
    (sampleWorld.stat "/spool/1eXn2s-0008DG-EX-H".toList = .regular ∨
        sampleWorld.stat "/spool/1eXn2s-0008DG-EX-H".toList = .other →
      (NewMsg sampleWorld "/spool/1eXn2s-0008DG-EX-H".toList "1eXn2s-0008DG-EX".toList).out =
        .error (.err (.errorf
          ("The path: ".toList ++ "/spool/1eXn2s-0008DG-EX-H".toList ++
            " is not a directory".toList)))) ∧
    sampleWorld.stat "/spool/1eXn2s-0008DG-EX-H".toList = .regular ∧
    sampleWorld.stat "/spool".toList = .dir ∧
    sampleWorld.stat (pathJoin "/spool".toList (hdrName "1cGaid-0000sq-9g".toList)) = .notExist ∧
    (NewMsg sampleWorld "/spool".toList "1cGaid-0000sq-9g".toList).out =
      .error (.err (.notExist (pathJoin "/spool".toList (hdrName "1cGaid-0000sq-9g".toList)))) :=
  ⟨(C11_directory_errors sampleWorld "/spool/1eXn2s-0008DG-EX-H".toList
      "1eXn2s-0008DG-EX".toList (by decide)).1,
   by decide, by decide, by decide,
   (C11_directory_errors sampleWorld "/spool".toList "1cGaid-0000sq-9g".toList (by decide)).2
     (by decide) (by decide)⟩

/-! ## C12: `checkPaths` and the data file -/

/-- C12 (fails on the code): the header file is a regular file and the data
path does not exist, or is a directory.  `checkPaths` returns both paths and no
error: it calls `os.Stat` on the directory and twice on the header path, never
on the data path. -/
theorem C12_data_path_not_checked :
    (worldWithStat .dir .notExist).stat "/spool/1eXn2s-0008DG-EX-D".toList = .notExist ∧
    checkPaths (worldWithStat .dir .notExist) "/spool".toList "1eXn2s-0008DG-EX".toList =
      ([.stat "/spool".toList, .stat "/spool/1eXn2s-0008DG-EX-H".toList,
        .stat "/spool/1eXn2s-0008DG-EX-H".toList],
       .ok ("/spool/1eXn2s-0008DG-EX-H".toList, "/spool/1eXn2s-0008DG-EX-D".toList)) ∧
    (checkPaths (worldWithStat .dir .dir) "/spool".toList "1eXn2s-0008DG-EX".toList).2 =
      .ok ("/spool/1eXn2s-0008DG-EX-H".toList, "/spool/1eXn2s-0008DG-EX-D".toList) ∧
    checkFile (worldWithStat .dir .dir) "/spool/1eXn2s-0008DG-EX-D".toList =
      .error (.err (.errorf
        "The path: /spool/1eXn2s-0008DG-EX-D is not a regular file".toList)) := by
  decide!

/-! ## C13: files and locks on the failure paths -/

/-- C13 (fails on the code): the data file `other-D\n` does not start with
`<id>-D`.  `NewMsg` returns the format error while the data file it opened is
still open and locked; with a header file that breaks off after its first line
both files stay open and locked.  After a successful `NewMsg`, `Close` releases
both locks and closes both files. -/
theorem C13_failure_keeps_files_locked :
    (NewMsg (worldWithDta "other-D\n".toList) "/spool".toList "1eXn2s-0008DG-EX".toList).out =
      .error (.err (spoolErr "/spool/1eXn2s-0008DG-EX-D".toList)) ∧
    openFiles (NewMsg (worldWithDta "other-D\n".toList) "/spool".toList
      "1eXn2s-0008DG-EX".toList).ops = ["/spool/1eXn2s-0008DG-EX-D".toList] ∧
    heldLocks (NewMsg (worldWithDta "other-D\n".toList) "/spool".toList
      "1eXn2s-0008DG-EX".toList).ops = ["/spool/1eXn2s-0008DG-EX-D".toList] ∧
    (NewMsg (spoolWorld "/spool/1eXn2s-0008DG-EX-H".toList "/spool/1eXn2s-0008DG-EX-D".toList
      "1eXn2s-0008DG-EX-H\n".toList sampleDta) "/spool".toList "1eXn2s-0008DG-EX".toList).out =
      .error (.err .eof) ∧
    heldLocks (NewMsg (spoolWorld "/spool/1eXn2s-0008DG-EX-H".toList
      "/spool/1eXn2s-0008DG-EX-D".toList "1eXn2s-0008DG-EX-H\n".toList sampleDta)
      "/spool".toList "1eXn2s-0008DG-EX".toList).ops =
      ["/spool/1eXn2s-0008DG-EX-D".toList, "/spool/1eXn2s-0008DG-EX-H".toList] ∧
    openFiles ((NewMsg sampleWorld "/spool".toList "1eXn2s-0008DG-EX".toList).ops ++
      sampleMsg.Close) = [] ∧
    heldLocks ((NewMsg sampleWorld "/spool".toList "1eXn2s-0008DG-EX".toList).ops ++
      sampleMsg.Close) = [] := by
  decide!

/-! ## C14: what `NewMsg` hands to its caller -/

/-- When `NewMsg` returns, exactly one of the `Msg` and the error is set. -/
theorem NewMsg_returned (w : World) (p id : Bytes) (m : Option Msg) (e : Option Error)
    (h : (NewMsg w p id).returned = some (m, e)) :
    (m.isSome = true ∧ e = none) ∨ (m = none ∧ e.isSome = true) := by
  unfold Run.returned at h
  split at h
  · injection h with h
    injection h with h1 h2
    left
    exact ⟨by rw [← h1]; rfl, h2.symm⟩
  · injection h with h
    injection h with h1 h2
    right
    exact ⟨h1.symm, by rw [← h2]; rfl⟩
  · cases h

/-- C14 (fails on the code): there are inputs on which `NewMsg` returns
neither a `Msg` nor an error, because it panics.  When `os.Stat` on the
directory fails with an error other than not-exist, `checkPaths` goes on to
`stat.IsDir()` on a nil `FileInfo`; an ACL line with a negative count ends in
`make([]byte, chars)`; a header record `-9\n` ends in `line[5:]` on three
bytes. -/
theorem C14_NewMsg_can_panic :
    (NewMsg (worldWithStat .failed .regular) "/spool".toList
      "1eXn2s-0008DG-EX".toList).returned = none ∧
    (NewMsg (worldWithHdr "-acl x -2\n\nNN\n1\nr@x\n\n008T To: a@b\n".toList) "/spool".toList
      "1eXn2s-0008DG-EX".toList).returned = none ∧
    (NewMsg (worldWithHdr "NN\n1\nr@x\n\n-9\n".toList) "/spool".toList
      "1eXn2s-0008DG-EX".toList).returned = none := by
  decide!

/-! ## C19: the number of non-recipients -/

/-- A line that starts with `N` or `Y` holds no integer for `%d`. -/
theorem Sscanf_int_letter (line : Bytes)
    (h : ("N".toList.isPrefixOf line || "Y".toList.isPrefixOf line) = true) :
    Sscanf_int line = scanError "expected integer" := by
  cases line with
  | nil => simp [List.isPrefixOf] at h
  | cons c s =>
    have hc : c = 'N' ∨ c = 'Y' := by
      simp only [String.toList, List.isPrefixOf, Bool.and_true, Bool.or_eq_true, beq_iff_eq] at h
      rcases h with h | h
      · exact Or.inl h.symm
      · exact Or.inr h.symm
    have hsp : isSpace c = false := by rcases hc with e | e <;> subst e <;> decide
    have hsk := SkipSpace_nonspace c s hsp
    have hacc : accept "+-".toList (c :: s) = (none, c :: s) := by
      rcases hc with e | e <;> subst e <;> simp [accept]
    have hspan : ((c :: s).span fun x => decimalDigits.contains x).1 = [] := by
      rw [List.span_eq_take_drop]
      rcases hc with e | e <;> subst e <;> simp [List.takeWhile, decimalDigits]
    unfold Sscanf_int
    rw [hsk]
    simp only [bind_ok_eq]
    unfold scanInt
    rw [hsk]
    simp only [bind_ok_eq, notEOF, hacc, if_false, reduceCtorEq]
    have hv : ('d' : Char) ≠ 'v' := by decide
    simp only [hv, if_false, scanNumber, Bool.false_eq_true, hspan, if_true, reduceCtorEq]
    rfl

/-- C19: every `Msg` that `NewMsg` returns has exactly one entry in `NonRcpts`.
On the `XX` line and on a second line that starts with `N` or `Y` the scan of
the recipient count fails, so no `Msg` with another number of entries comes
back. -/
theorem C19_one_non_recipient (w : World) (p id : Bytes) (m : Msg)
    (hok : (NewMsg w p id).out = .ok m) : m.NonRcpts.length = 1 := by
  obtain ⟨_, _, _, _, hp⟩ := NewMsg_ok w p id m hok
  obtain ⟨first, own, snd, tim, dash, non, num, rc, sep, hdrs, _, _, _, _, _, _, h6, h7, _,
    _, _, hm⟩ := parseHeader_ok _ _ _ _ _ hp
  subst hm
  show non.1.length = 1
  unfold nonRcpts at h6
  split at h6
  · split at h6
    · cases h6
    · rename_i next r1 hrb
      split at h6
      · rename_i hny
        injection h6 with h6
        rw [← h6] at h7
        rw [Sscanf_int_letter next hny] at h7
        cases h7
      · injection h6 with h6
        rw [← h6]
        rfl
  · injection h6 with h6
    rw [← h6]
    rfl

theorem C19_one_non_recipient_witness :
    (NewMsg sampleWorld "/spool".toList "1eXn2s-0008DG-EX".toList).out = .ok sampleMsg ∧
      sampleMsg.NonRcpts.length = 1 :=
  ⟨by decide!,
   C19_one_non_recipient sampleWorld "/spool".toList "1eXn2s-0008DG-EX".toList sampleMsg
     (by decide!)⟩

/-! ## C20: slicing the five-byte prefix -/

/-- C20 (fails on the code): the header-record section `-9\n` is accepted by
the scan with length `-9` and the newline as flag, `rsize` is negative so
nothing more is read, and the record held is three bytes long: `line[5:]`
panics.  With `-1\n` followed by one byte the extra read succeeds and the
record is four bytes long. -/
theorem C20_short_record_panics :
    Sscanf_hdr "-9\n".toList = .ok (-9, '\n') ∧
    newMsgWithHdr "NN\n1\nr@x\n\n-9\n".toList = .error (.panic "slice bounds out of range") ∧
    hdrRecord "/spool/1eXn2s-0008DG-EX-H".toList (-1) "-1\n".toList "x".toList =
      .ok ("-1\nx".toList, []) ∧
    newMsgWithHdr "NN\n1\nr@x\n\n-1\nx".toList = .error (.panic "slice bounds out of range") := by
  decide!

/-! ## C17: the length of the record prefix -/

/-- C17 (fails on the code): the record `0008T To: a@b\n` is written with a
length of four digits.  `Hdrs` gets ` To: a@b`, the text with the space of the
prefix before it, because `line[5:]` strips five bytes whatever the number of
digits is; the same happens to a record of 1001 bytes of text, `1001T X: aa...`.
A record of four digits whose text spans two lines is read one byte short, and
the scan of the next record fails; the record `08T To: a@b\n` with two digits
reads into the next record, which then ends early. -/
theorem C17_prefix_not_five_bytes :
    ((newMsgWithHdr "NN\n1\nr@x\n\n0008T To: a@b\n".toList).map
        fun m => (m.Hdrs, m.RawHdrs)) = .ok ([" To: a@b".toList], ["0008T To: a@b".toList]) ∧
    ((newMsgWithHdr ("NN\n1\nr@x\n\n1001T X: ".toList ++ List.replicate 997 'a' ++
        "\n006F Cc: c\n".toList)).map fun m => m.Hdrs) =
      .ok [" X: ".toList ++ List.replicate 997 'a', "Cc: c".toList] ∧
    newMsgWithHdr "NN\n1\nr@x\n\n0011T To: a@b\n c\n006F Cc: c\n".toList =
      .error (.err (.scan "unexpected newline")) ∧
    newMsgWithHdr "NN\n1\nr@x\n\n08T To: a@b\n006F Cc: c\n".toList = .error (.err .eof) := by
  decide!

/-! ## C15: the sender -/

/-- What `bytes.Trim` does: it removes a run of cutset bytes at each end, and
what is left neither starts nor ends with a byte of the cutset. -/
theorem bytesTrim_spec (cut s : Bytes) :
    ∃ pre post, s = pre ++ bytesTrim cut s ++ post ∧
      (∀ c ∈ pre, cut.contains c = true) ∧ (∀ c ∈ post, cut.contains c = true) ∧
      (∀ c, (bytesTrim cut s).head? = some c → cut.contains c = false) ∧
      (∀ c, (bytesTrim cut s).getLast? = some c → cut.contains c = false) := by
  let q : Char → Bool := fun c => cut.contains c
  have hl : trimLeft cut s = s.dropWhile q := rfl
  have hr : bytesTrim cut s = ((s.dropWhile q).reverse.dropWhile q).reverse := rfl
  have hsplit : s.dropWhile q =
      ((s.dropWhile q).reverse.dropWhile q).reverse ++
        ((s.dropWhile q).reverse.takeWhile q).reverse := by
    rw [← List.reverse_append, List.takeWhile_append_dropWhile, List.reverse_reverse]
  have hlast : ∀ c, (bytesTrim cut s).getLast? = some c → cut.contains c = false := by
    intro c hc
    rw [hr, List.getLast?_reverse] at hc
    have := List.head?_dropWhile_not q (s.dropWhile q).reverse
    rw [hc] at this
    exact this
  refine ⟨s.takeWhile q, ((s.dropWhile q).reverse.takeWhile q).reverse, ?_, ?_, ?_, ?_, hlast⟩
  · rw [hr, List.append_assoc, ← hsplit, List.takeWhile_append_dropWhile]
  · intro c hc
    exact List.mem_takeWhile_imp hc
  · intro c hc
    exact List.mem_takeWhile_imp (List.mem_reverse.mp hc)
  · intro c hc
    cases hb : bytesTrim cut s with
    | nil => rw [hb] at hc; cases hc
    | cons a t =>
      rw [hb] at hc
      injection hc with hc
      subst hc
      have h1 : s.dropWhile q = a :: (t ++ ((s.dropWhile q).reverse.takeWhile q).reverse) := by
        rw [hr] at hb
        conv_lhs => rw [hsplit, hb]
        rfl
      have := List.head?_dropWhile_not q s
      rw [h1] at this
      exact this

/-- With the lines `<id>-H`, `<user> <uid> <gid>` and `<sender>` at the start of
the header file, the `Sender` that `NewMsg` stores is the sender word passed
through `bytes.Trim(.., "\n><")`. -/
theorem NewMsg_sender (w : World) (p id user sender rest : Bytes)
    (uid gid : Int) (m : Msg)
    (hid : isWord id = true) (huser : isWord user = true) (hsender : isWord sender = true)
    (huid : inInt64 uid) (hgid : inInt64 gid)
    (hfile : w.content (pathJoin p (hdrName id)) =
      hdrName id ++ "\n".toList ++ user ++ " ".toList ++ decimalInt uid ++ " ".toList ++
        decimalInt gid ++ "\n".toList ++ sender ++ "\n".toList ++ rest)
    (hok : (NewMsg w p id).out = .ok m) :
    m.Sender = bytesTrim "\n><".toList sender := by
  obtain ⟨_, _, _, _, hp⟩ := NewMsg_ok w p id m hok
  obtain ⟨first, own, snd, tim, dash, non, num, rc, sep, hdrs, h1, _, h2, h3, _, _, _, _, _, _,
    _, hm⟩ := parseHeader_ok _ _ _ _ _ hp
  have hc : w.content (pathJoin p (hdrName id)) =
      hdrName id ++ '\n' :: (user ++ ' ' :: (decimalInt uid ++ ' ' :: (decimalInt gid ++ '\n' ::
        (sender ++ '\n' :: rest)))) := by
    rw [hfile]
    simp
  rw [hc, Fscanln_bytes_line _ _ (isWord_hdrName id hid)] at h1
  injection h1 with h1
  subst h1
  rw [Fscanln_bytes_int_int_line _ _ _ _ huser huid hgid] at h2
  injection h2 with h2
  subst h2
  rw [Fscanln_bytes_line _ _ hsender] at h3
  injection h3 with h3
  subst h3
  subst hm
  rfl

/-- C15 (amended): for a sender line holding one word `t`, the stored `Sender`
is `t` without the run of `<` and `>` characters at its start and the run of
`<` and `>` characters at its end: what is removed at either end consists of
brackets of both kinds, what is left neither starts nor ends with a bracket,
and a word without brackets is stored unchanged. -/
theorem C15_sender_brackets (w : World) (p id user t rest : Bytes)
    (uid gid : Int) (m : Msg)
    (hid : isWord id = true) (huser : isWord user = true) (ht : isWord t = true)
    (huid : inInt64 uid) (hgid : inInt64 gid)
    (hfile : w.content (pathJoin p (hdrName id)) =
      hdrName id ++ "\n".toList ++ user ++ " ".toList ++ decimalInt uid ++ " ".toList ++
        decimalInt gid ++ "\n".toList ++ t ++ "\n".toList ++ rest)
    (hok : (NewMsg w p id).out = .ok m) :
    (∃ pre post, t = pre ++ m.Sender ++ post ∧
      (∀ c ∈ pre, c = '<' ∨ c = '>') ∧ (∀ c ∈ post, c = '<' ∨ c = '>')) ∧
    (∀ c, m.Sender.head? = some c → c ≠ '<' ∧ c ≠ '>') ∧
    (∀ c, m.Sender.getLast? = some c → c ≠ '<' ∧ c ≠ '>') ∧
    ((∀ c ∈ t, c ≠ '<' ∧ c ≠ '>') → m.Sender = t) := by
  have hs := NewMsg_sender w p id user t rest uid gid m hid huser ht huid hgid hfile hok
  obtain ⟨pre, post, e, hpre, hpost, hhead, hlast⟩ := bytesTrim_spec "\n><".toList t
  rw [← hs] at e hhead hlast
  have hnl := word_no_newline t ht
  have hin : ∀ c, "\n><".toList.contains c = true → c = '\n' ∨ c = '>' ∨ c = '<' := by
    intro c hc
    simpa using hc
  have hout : ∀ c, "\n><".toList.contains c = false → c ≠ '<' ∧ c ≠ '>' := by
    intro c hc
    constructor <;> (intro e; subst e; exact absurd hc (by decide))
  have hbr : ∀ c, c ∈ t → "\n><".toList.contains c = true → c = '<' ∨ c = '>' := by
    intro c hct hc
    rcases hin c hc with h | h | h
    · subst h; exact absurd hct hnl
    · exact Or.inr h
    · exact Or.inl h
  have hpre' : ∀ c ∈ pre, c = '<' ∨ c = '>' := fun c hc =>
    hbr c (by rw [e]; simp [hc]) (hpre c hc)
  have hpost' : ∀ c ∈ post, c = '<' ∨ c = '>' := fun c hc =>
    hbr c (by rw [e]; simp [hc]) (hpost c hc)
  refine ⟨⟨pre, post, e, hpre', hpost'⟩, fun c hc => hout c (hhead c hc),
    fun c hc => hout c (hlast c hc), ?_⟩
  intro hno
  have hp0 : pre = [] := by
    cases pre with
    | nil => rfl
    | cons a u =>
      have h1 := hpre' a (by simp)
      have h2 := hno a (by rw [e]; simp)
      rcases h1 with h | h
      · exact absurd h h2.1
      · exact absurd h h2.2
  have hp1 : post = [] := by
    cases post with
    | nil => rfl
    | cons a u =>
      have h1 := hpost' a (by simp)
      have h2 := hno a (by rw [e]; simp)
      rcases h1 with h | h
      · exact absurd h h2.1
      · exact absurd h h2.2
  rw [hp0, hp1] at e
  simpa using e.symm

theorem C15_sender_brackets_witness :
    (NewMsg sampleWorld "/spool".toList "1eXn2s-0008DG-EX".toList).out = .ok sampleMsg ∧
      "<andrew@kudusoft.home>".toList = "<".toList ++ sampleMsg.Sender ++ ">".toList ∧
      (∀ c, sampleMsg.Sender.head? = some c → c ≠ '<' ∧ c ≠ '>') :=
  ⟨by decide!, by decide!,
   (C15_sender_brackets sampleWorld "/spool".toList "1eXn2s-0008DG-EX".toList "exim".toList
     "<andrew@kudusoft.home>".toList
     ("1515239630 0\n-helo_name alcazar.home\nNN\n1\nr@x\n\n008T To: a@b\n" ++
       "014  Subject:\n x y\n").toList
     93 93 sampleMsg (by decide!) (by decide!) (by decide!) (by decide!) (by decide!)
     (by decide!) (by decide!)).2.1⟩

/-- C15 (as stated, fails): the sender line `>a@b<` starts with `>` and ends
with `<`; both are removed and `Sender` is `a@b`.  The line `<<a@b>>` gives
`a@b` as well. -/
theorem C15_other_brackets_removed :
    ((NewMsg (spoolWorld "/spool/1eXn2s-0008DG-EX-H".toList "/spool/1eXn2s-0008DG-EX-D".toList
        ("1eXn2s-0008DG-EX-H\nexim 93 93\n>a@b<\n1515239630 0\n" ++
          "NN\n1\nr@x\n\n008T To: a@b\n").toList sampleDta)
        "/spool".toList "1eXn2s-0008DG-EX".toList).out.map fun m => m.Sender) =
      .ok "a@b".toList ∧
    ((NewMsg (spoolWorld "/spool/1eXn2s-0008DG-EX-H".toList "/spool/1eXn2s-0008DG-EX-D".toList
        ("1eXn2s-0008DG-EX-H\nexim 93 93\n<<a@b>>\n1515239630 0\n" ++
          "NN\n1\nr@x\n\n008T To: a@b\n").toList sampleDta)
        "/spool".toList "1eXn2s-0008DG-EX".toList).out.map fun m => m.Sender) =
      .ok "a@b".toList := by
  decide!

/-! ## C18: `CreateFile` -/

/-- On a path that does not exist yet and is not the data file, `CreateFile`
leaves in the file exactly the text that `String` returns. -/
theorem CreateFile_fresh (w : World) (m : Msg) (fn : Bytes) (w2 : World)
    (hnew : w.stat fn = .notExist) (hne : m.df ≠ fn)
    (h : m.CreateFile w fn = .ok w2) :
    m.String w = .ok (w2.content fn) := by
  unfold Msg.CreateFile at h
  unfold Msg.String
  have hdf : (w.withFile fn (writeAtStart [] (headerText m.Hdrs))).content m.df =
      w.content m.df := by
    simp [World.withFile, hne]
  simp only [hnew, decide_True, if_true, hdf] at h
  split at h
  · cases h
  · split at h
    · cases h
    · rename_i x y dr hrb
      simp only [hrb]
      split at h
      · cases h
      · rename_i text hb
        injection h with h
        rw [hb, ← h]
        simp [World.withFile, writeAtStart]

/-- C18 (fails on the code): the destination `/out.eml` exists and holds 60
bytes `x`.  `CreateFile` returns no error and the file then holds the 47 bytes
that `String` returns followed by the last 13 bytes `x` of the old content:
the file is opened without `O_TRUNC`.  On a destination that does not exist
the file holds the text of `String`. -/
theorem C18_CreateFile_keeps_old_tail :
    Msg.String (sampleWorld.withFile "/out.eml".toList (List.replicate 60 'x')) sampleMsg =
      .ok "To: a@b\nSubject:\n x y\n\nThis is a test mailing\n\n".toList ∧
    ((sampleMsg.CreateFile (sampleWorld.withFile "/out.eml".toList (List.replicate 60 'x'))
        "/out.eml".toList).map fun w => w.content "/out.eml".toList) =
      .ok ("To: a@b\nSubject:\n x y\n\nThis is a test mailing\n\n".toList ++
        List.replicate 13 'x') ∧
    sampleWorld.stat "/out.eml".toList = .notExist ∧
    ((sampleMsg.CreateFile sampleWorld "/out.eml".toList).map
        fun w => w.content "/out.eml".toList) =
      .ok "To: a@b\nSubject:\n x y\n\nThis is a test mailing\n\n".toList := by
  decide!

/-! ## C16: the round trip through `String` -/

theorem splitLines_ne_nil (s : Bytes) : splitLines s ≠ [] := by
  cases s with
  | nil => simp [splitLines]
  | cons c t =>
    by_cases h : c = '\n'
    · simp [splitLines, h]
    · cases hs : splitLines t <;> simp [splitLines, h, hs]

theorem splitLines_append (a b : Bytes) :
    splitLines (a ++ '\n' :: b) = splitLines a ++ splitLines b := by
  induction a with
  | nil => simp [splitLines]
  | cons c a ih =>
    by_cases h : c = '\n'
    · simp [splitLines, h, ih]
    · cases hs : splitLines a with
      | nil => exact absurd hs (splitLines_ne_nil a)
      | cons x xs =>
        rw [hs] at ih
        simp [splitLines, h, ih, hs]

theorem joinLines_cons (l : Bytes) (x : Bytes) (xs : List Bytes) :
    joinLines (l :: x :: xs) = l ++ '\n' :: joinLines (x :: xs) := rfl

theorem joinLines_splitLines (s : Bytes) : joinLines (splitLines s) = s := by
  induction s with
  | nil => rfl
  | cons c t ih =>
    by_cases h : c = '\n'
    · cases hs : splitLines t with
      | nil => exact absurd hs (splitLines_ne_nil t)
      | cons x xs =>
        rw [hs] at ih
        simp only [splitLines, h, if_true, hs, joinLines_cons, ih, List.nil_append]
    · cases hs : splitLines t with
      | nil => exact absurd hs (splitLines_ne_nil t)
      | cons x xs =>
        rw [hs] at ih
        simp only [splitLines, h, if_false, hs]
        cases xs with
        | nil =>
          simp only [joinLines] at ih ⊢
          rw [ih]
        | cons y ys =>
          rw [joinLines_cons] at ih ⊢
          rw [List.cons_append, ih]

theorem groupHeaders_ne_nil (l : Bytes) (ls : List Bytes) : groupHeaders (l :: ls) ≠ [] := by
  rw [groupHeaders]
  unfold attachLine
  split
  · split <;> simp
  · simp

/-- One header, given by its lines, at the head of a list of lines whose next
line, if any, does not start with whitespace. -/
theorem groupHeaders_header (first : Bytes) (conts rest : List Bytes)
    (hc : conts.all startsBlank = true)
    (hr : rest.head?.all (fun l => !startsBlank l) = true) :
    groupHeaders (first :: (conts ++ rest)) =
      joinLines (first :: conts) :: groupHeaders rest := by
  induction conts generalizing first with
  | nil =>
    cases rest with
    | nil => simp [groupHeaders, attachLine, joinLines]
    | cons n r =>
      have hn : startsBlank n = false := by simpa using hr
      cases hg : groupHeaders (n :: r) with
      | nil => exact absurd hg (groupHeaders_ne_nil n r)
      | cons g gs =>
        rw [List.nil_append, groupHeaders, hg]
        simp only [attachLine, List.head?_cons, hn, Bool.false_eq_true, if_false, joinLines]
  | cons c cs ih =>
    have hc1 : startsBlank c = true := by
      simp only [List.all_cons, Bool.and_eq_true] at hc
      exact hc.1
    have hc2 : cs.all startsBlank = true := by
      simp only [List.all_cons, Bool.and_eq_true] at hc
      exact hc.2
    have := ih c hc2
    rw [List.cons_append, groupHeaders, this]
    simp only [attachLine, List.head?_cons, hc1, if_true, joinLines_cons]

theorem isFoldedHeader_iff (h : Bytes) (hf : isFoldedHeader h = true) :
    ∃ first conts, splitLines h = first :: conts ∧ first ≠ [] ∧ startsBlank first = false ∧
      conts.all startsBlank = true := by
  unfold isFoldedHeader at hf
  cases hs : splitLines h with
  | nil => exact absurd hs (splitLines_ne_nil h)
  | cons first conts =>
    rw [hs] at hf
    simp only [Bool.and_eq_true, Bool.not_eq_true', List.isEmpty_eq_false] at hf
    exact ⟨first, conts, rfl, by simpa using hf.1.1, hf.1.2, hf.2⟩

/-- The lines of well-shaped headers, grouped again, are the headers. -/
theorem groupHeaders_lines (hdrs : List Bytes) (hw : ∀ h ∈ hdrs, isFoldedHeader h = true) :
    groupHeaders (hdrs.map splitLines).flatten = hdrs ∧
      (hdrs.map splitLines).flatten.head?.all (fun l => !startsBlank l) = true ∧
      ((hdrs.map splitLines).flatten.all fun l => !l.isEmpty) = true := by
  induction hdrs with
  | nil => exact ⟨rfl, rfl, rfl⟩
  | cons h hs ih =>
    obtain ⟨i1, i2, i3⟩ := ih (fun x hx => hw x (by simp [hx]))
    obtain ⟨first, conts, e1, e2, e3, e4⟩ := isFoldedHeader_iff h (hw h (by simp))
    have hne : ∀ l ∈ conts, l ≠ [] := by
      intro l hl hnil
      have := List.all_eq_true.mp e4 l hl
      rw [hnil] at this
      exact absurd this (by decide)
    refine ⟨?_, ?_, ?_⟩
    · rw [List.map_cons, List.flatten_cons, e1, List.cons_append,
        groupHeaders_header first conts _ e4 i2, i1, ← e1, joinLines_splitLines]
    · rw [List.map_cons, List.flatten_cons, e1]
      simp [e3]
    · rw [List.map_cons, List.flatten_cons, e1, List.all_append, i3]
      simp only [List.all_cons, Bool.and_true, Bool.and_eq_true, Bool.not_eq_true',
        List.isEmpty_eq_false]
      refine ⟨by simpa using e2, ?_⟩
      rw [List.all_eq_true]
      intro l hl
      simpa using hne l hl

theorem foldl_headers (hdrs : List Bytes) (init : Bytes) :
    hdrs.foldl (fun b h => b ++ h ++ "\n".toList) init = init ++ unlines hdrs := by
  induction hdrs generalizing init with
  | nil => simp [unlines]
  | cons h hs ih =>
    rw [List.foldl_cons, ih]
    simp [unlines]

theorem headerText_eq (hdrs : List Bytes) : headerText hdrs = unlines hdrs ++ ['\n'] := by
  unfold headerText
  rw [foldl_headers]
  simp

theorem splitLines_unlines (hdrs : List Bytes) (t : Bytes) :
    splitLines (unlines hdrs ++ '\n' :: t) =
      (hdrs.map splitLines).flatten ++ [] :: splitLines t := by
  induction hdrs with
  | nil => simp [unlines, splitLines]
  | cons h hs ih =>
    have : unlines (h :: hs) ++ '\n' :: t = h ++ '\n' :: (unlines hs ++ '\n' :: t) := by
      simp [unlines]
    rw [this, splitLines_append, ih]
    simp

theorem bodyLoop_extends (fuel : Nat) (b dr s : Bytes) (h : bodyLoop fuel b dr = .ok s) :
    ∃ t, s = b ++ t := by
  induction fuel generalizing b dr with
  | zero => cases h
  | succ f ih =>
    rw [bodyLoop] at h
    split at h
    · split at h
      · injection h with h
        exact ⟨[], by simp [h]⟩
      · cases h
    · rename_i lineb dr2 _
      obtain ⟨t, ht⟩ := ih _ _ h
      exact ⟨lineb ++ t, by rw [ht]; simp⟩

/-- The text of `String` starts with the headers, each with its terminator,
and the empty line. -/
theorem String_shape (w : World) (m : Msg) (s : Bytes) (h : m.String w = .ok s) :
    ∃ t, s = unlines m.Hdrs ++ '\n' :: t := by
  unfold Msg.String at h
  simp only at h
  split at h
  · cases h
  · obtain ⟨t, ht⟩ := bodyLoop_extends _ _ _ _ h
    exact ⟨t, by rw [ht, headerText_eq]; simp⟩

/-- C16 (amended): when every entry of `Hdrs` is a folded header (a first
line that is not empty and does not start with whitespace, further lines that
start with whitespace), the text that `String` returns, cut at its first empty
line and read as a header block, gives back the sequence `Hdrs` in order. -/
theorem C16_round_trip (w : World) (m : Msg) (s : Bytes)
    (hw : ∀ h ∈ m.Hdrs, isFoldedHeader h = true) (hs : m.String w = .ok s) :
    headerBlock s = m.Hdrs := by
  obtain ⟨t, ht⟩ := String_shape w m s hs
  obtain ⟨g1, _, g3⟩ := groupHeaders_lines m.Hdrs hw
  unfold headerBlock
  rw [ht, splitLines_unlines, List.takeWhile_append_of_pos (fun l hl => List.all_eq_true.mp g3 l hl)]
  simp only [List.takeWhile_cons, List.isEmpty_nil, Bool.not_true, Bool.false_eq_true, if_false,
    List.append_nil]
  exact g1

theorem C16_round_trip_witness :
    (∀ h ∈ sampleMsg.Hdrs, isFoldedHeader h = true) ∧
      sampleMsg.String sampleWorld =
        .ok "To: a@b\nSubject:\n x y\n\nThis is a test mailing\n\n".toList ∧
      headerBlock "To: a@b\nSubject:\n x y\n\nThis is a test mailing\n\n".toList =
        sampleMsg.Hdrs :=
  ⟨by decide!, by decide!,
   C16_round_trip sampleWorld sampleMsg
     "To: a@b\nSubject:\n x y\n\nThis is a test mailing\n\n".toList (by decide!) (by decide!)⟩

/-- C16 (as stated, fails): `NewMsg` keeps the text of a record as it is, so
`Hdrs` can hold entries that the re-parse does not give back.  A record whose
second line does not start with whitespace comes back as two headers; a record
with an empty text is an empty line in the output, where the header block
ends; an entry that starts with the space left by a length of four digits is
joined to the header before it. -/
theorem C16_round_trip_fails :
    ((newMsgWithHdr "NN\n1\nr@x\n\n010T To: a@b\nc\n".toList).map fun m => m.Hdrs) =
      .ok ["To: a@b\nc".toList] ∧
    headerBlock "To: a@b\nc\n\nThis is a test mailing\n\n".toList =
      ["To: a@b".toList, "c".toList] ∧
    ((newMsgWithHdr "NN\n1\nr@x\n\n001T \n008T To: a@b\n".toList).map fun m => m.Hdrs) =
      .ok [[], "To: a@b".toList] ∧
    headerBlock "\nTo: a@b\n\nThis is a test mailing\n\n".toList = [] ∧
    ((newMsgWithHdr "NN\n1\nr@x\n\n008T To: a@b\n0008F Cc: c@d\n".toList).map fun m => m.Hdrs) =
      .ok ["To: a@b".toList, " Cc: c@d".toList] ∧
    headerBlock "To: a@b\n Cc: c@d\n\nThis is a test mailing\n\n".toList =
      ["To: a@b\n Cc: c@d".toList] := by
  decide!

end Spoolfile
